import Mathlib

/-!
Verification of the Research Orchestration Engine of the Casino-AI-Researcher
repository (`src/server.js`) against its natural-language specification.

The engine is embedded shallowly:

* Mongoose documents become Lean structures mirroring the declared schemas
  (`casinoSchema`, `offerSchema`, `researchRunSchema`); the derived duplicate
  fields `bonusAmount`/`bonusType` of the offer schema (always copies of
  `expectedBonus` / lowercased `offerType`) and the `casinodb_id` / timestamp
  bookkeeping fields are not modelled, since no behaviour of the orchestrator
  reads them back.
* The document store becomes an explicit record of lists kept in insertion
  order; `find` is list filtering, `findOne` an existence test over that
  order, `create` an append.
* The `async`/`await` control flow of `performResearch` becomes explicit
  state passing in a result type `StepR` that either succeeds with a value
  and a next state or aborts with an error and the state at the point of
  failure (the JavaScript exception that escapes to the `catch` block of
  `performResearch`).
* Store operations can fail: the environment carries an optional fault
  position, and the n-th database operation of a run raises a store error
  when the fault position is n.  The two store writes inside the `catch`
  handler itself are modelled as always succeeding.
* The external completion service and the platform built-ins `JSON.parse`
  and `RegExp` are not repository code; the completion responses and the
  JSON parser are environment parameters, and the regular expressions that
  the engine builds (`'^' + name + '$'` with flag `'i'`) are modelled for
  metacharacter-free names, where they denote case-insensitive literal
  equality; a name containing a regex metacharacter is modelled as the
  constructor throwing, as happens in JavaScript for e.g. an unbalanced
  parenthesis.
* Timestamps are modelled as presence flags, and the timestamp prefix and
  emoji decorations of progress-log entries are elided; log entries keep
  the message text that the claims inspect.
-/

namespace CasinoResearch

/-- ASCII model of JavaScript `toLowerCase`, applied character-wise. -/
def jsToLower (s : String) : String :=
  String.mk (s.data.map Char.toLower)

/-- ASCII model of JavaScript `trim`: drop leading and trailing
whitespace. -/
def jsTrim (s : String) : String :=
  String.mk (((s.data.dropWhile Char.isWhitespace).reverse.dropWhile
    Char.isWhitespace).reverse)

/-- Structural substring test: whether `needle` occurs contiguously in
`hay`. -/
def listHasInfix (needle : List Char) : List Char → Bool
  | [] => needle.isEmpty
  | c :: t => needle.isPrefixOf (c :: t) || listHasInfix needle t

/-- Substring test mirroring JavaScript
`hay.toLowerCase().includes(needle.toLowerCase())`. -/
def includesCI (hay needle : String) : Bool :=
  listHasInfix (jsToLower needle).data (jsToLower hay).data

/-- A stored casino document (`casinoSchema`, server.js:27-37).  `discovered`
is `false` for reference imports and `true` for venues created by a research
run. -/
structure Casino where
  name : String
  state : String
  stateAbbreviation : String
  website : Option String := none
  licenseNumber : Option String := none
  discovered : Bool := false
deriving Repr, DecidableEq

/-- A stored offer document (`offerSchema`, server.js:39-57), restricted to
the fields the orchestrator reads or writes.  `source` is `"internal-api"`
for reference offers and `"ai-research"` for offers created by a run. -/
structure StoredOffer where
  casinoName : String
  state : String
  stateAbbreviation : String
  offerName : String
  offerType : String
  expectedDeposit : Int := 0
  expectedBonus : Int := 0
  description : Option String := none
  terms : Option String := none
  source : String
deriving Repr, DecidableEq

/-- A candidate venue returned by the discovery stage (the objects of the
`casinos` array the prompt requests, server.js:128-136).  The upstream
service may omit fields, hence every field is optional; a missing `name`
makes the matching step of the orchestrator throw. -/
structure CasinoCandidate where
  name : Option String := none
  website : Option String := none
  licenseNumber : Option String := none
  city : Option String := none
deriving Repr, DecidableEq

/-- A candidate offer returned by the offer-research stage (the objects of
the `offers` array the prompt requests, server.js:161-171). -/
structure OfferCandidate where
  offerName : String
  offerType : String
  expectedDeposit : Int := 0
  expectedBonus : Int := 0
  description : String := ""
  terms : String := ""
deriving Repr, DecidableEq

/-- The offer summaries stored in a run's comparison entries
(server.js:410-432).  The `description` field is present only on the
`newOffers` summaries; the JavaScript objects of the other two lists simply
lack the key, modelled as `none`. -/
structure OfferView where
  name : String
  type : String
  deposit : Int
  bonus : Int
  description : Option String := none
deriving Repr, DecidableEq

/-- One per-jurisdiction missing-venue entry of a run record
(server.js:68-73). -/
structure MissingEntry where
  state : String
  casinos : List String
deriving Repr, DecidableEq

/-- One per-venue offer-comparison entry of a run record
(server.js:74-82). -/
structure ComparisonEntry where
  casinoName : String
  state : String
  currentOffers : List OfferView
  discoveredOffers : List OfferView
  newOffers : List OfferView
deriving Repr, DecidableEq

/-- The final summary of a run record (server.js:83-87). -/
structure RunSummary where
  totalMissingCasinos : Nat
  totalNewOffers : Nat
  statesProcessed : List String
deriving Repr, DecidableEq

/-- The status enumeration of the run-record schema (server.js:60). -/
inductive RunStatus where
  | pending
  | inProgress
  | completed
  | failed
deriving Repr, DecidableEq

/-- A research-run document (`researchRunSchema`, server.js:59-88).
`completedAt` records only whether the completion timestamp has been set. -/
structure RunRecord where
  status : RunStatus := .pending
  completedAt : Bool := false
  currentState : Option String := none
  currentCasino : Option String := none
  offersProcessed : Nat := 0
  casinosProcessed : Nat := 0
  progressLog : List String := []
  missingCasinos : List MissingEntry := []
  offerComparisons : List ComparisonEntry := []
  summary : Option RunSummary := none
deriving Repr, DecidableEq

/-- The document store: casino and offer collections in insertion order. -/
structure Store where
  casinos : List Casino := []
  offers : List StoredOffer := []
deriving Repr, DecidableEq

/-- The local variables of `performResearch` that accumulate across the
jurisdiction loop (server.js:295-299). -/
structure Locals where
  missingCasinos : List MissingEntry := []
  offerComparisons : List ComparisonEntry := []
  totalNewOffers : Nat := 0
  totalCasinosProcessed : Nat := 0
  totalOffersProcessed : Nat := 0
deriving Repr, DecidableEq

/-- The errors that can escape to the `catch` block of `performResearch`:
a failing store operation, reading `.toLowerCase` of a candidate without a
`name` (server.js:322), or the `RegExp` constructor rejecting the pattern
built from a candidate name (server.js:325). -/
inductive RunError where
  | storeError
  | typeError
  | regexSyntaxError
deriving Repr, DecidableEq

/-- The `error.message` text interpolated into the failure log entry
(server.js:464). -/
def RunError.message : RunError → String
  | .storeError => "store operation failed"
  | .typeError => "Cannot read properties of undefined"
  | .regexSyntaxError => "Invalid regular expression"

/-- Trace of stage invocations, recorded so that theorems can speak about
which jurisdictions and venues a run actually processed. -/
inductive TraceEvent where
  | discoverCall (stateName : String)
  | researchCall (casinoName stateName : String)
deriving Repr, DecidableEq

/-- The full state threaded through the orchestrator: the store, the run
record, the local accumulators, a counter of store operations performed
(used for fault injection) and the stage-invocation trace. -/
structure RunState where
  store : Store
  run : RunRecord
  locals : Locals := {}
  opCount : Nat := 0
  trace : List TraceEvent := []
deriving Repr, DecidableEq

/-- The environment of one run: the results of the two AI stages (already
reduced to candidate lists by `discoverCasinosByState` /
`researchCasinoOffers`, which never throw), the platform's regular
expression engine, and an optional store-fault position: the `faultAt`-th
store operation of the run raises.

`regexTest nm` models the JavaScript expression
`new RegExp('^' + nm + '$', 'i')` built by the venue-matching step
(server.js:325): `none` models the constructor throwing a `SyntaxError`
(the pattern is invalid, e.g. `nm = "("`), and `some t` models a successful
compilation whose `test` method is `t`.  Like `JSON.parse`, `RegExp` is a
platform built-in rather than repository code, so its semantics is an
environment parameter; theorems that need it assume only the documented
fact that a metacharacter-free name compiles to the anchored
case-insensitive literal test (`envRegexFaithful`). -/
structure Env where
  discover : String → List CasinoCandidate
  research : String → String → List OfferCandidate
  regexTest : String → Option (String → Bool)
  faultAt : Option Nat := none

/-- Result of one step of the orchestrator: success with a value and the
next state, or an exception carrying the state at the point of failure. -/
inductive StepR (α : Type) where
  | ok : α → RunState → StepR α
  | err : RunError → RunState → StepR α
deriving Repr

/-- Sequencing of orchestrator steps; an exception short-circuits. -/
def StepR.bind {α β : Type} : StepR α → (α → RunState → StepR β) → StepR β
  | .ok a s, f => f a s
  | .err e s, _ => .err e s

/-- One store operation: ticks the operation counter and raises a store
error when the environment's fault position is reached. -/
def dbTick (env : Env) (s : RunState) : StepR Unit :=
  if env.faultAt = some s.opCount then
    .err .storeError { s with opCount := s.opCount + 1 }
  else
    .ok () { s with opCount := s.opCount + 1 }

/-- A store write: a store operation followed by the pure effect `f` on the
state.  When the operation faults, the effect is not applied. -/
def dbWrite (env : Env) (f : RunState → RunState) (s : RunState) : StepR Unit :=
  (dbTick env s).bind fun _ s => .ok () (f s)

/-- Appends a progress-log entry (`logProgress`, server.js:278-284; the
timestamp prefix and the `$push` update are the store operation). -/
@[simp] def logPush (msg : String) (s : RunState) : RunState :=
  { s with run := { s.run with progressLog := s.run.progressLog ++ [msg] } }

/-- The JavaScript regular-expression metacharacters.  A candidate name
containing none of them compiles (as `'^' + name + '$'` with flag `'i'`) to
an anchored case-insensitive literal match. -/
def regexMeta : List Char :=
  ['\\', '^', '$', '.', '|', '?', '*', '+', '(', ')', '[', ']', '\x7b', '\x7d']

/-- Whether a candidate name is free of regex metacharacters.  For such a
name the pattern `'^' + nm + '$'` with flag `'i'` is valid and denotes the
anchored case-insensitive literal match; names containing metacharacters
compile to other regex semantics (or fail to compile), which the
environment's `regexTest` supplies. -/
def regexSafe (nm : String) : Bool :=
  nm.data.all (fun c => !(regexMeta.contains c))

/-- The anchored case-insensitive literal test: the semantics of
`new RegExp('^' + nm + '$', 'i').test` when `nm` is free of regex
metacharacters. -/
def ciLiteralTest (nm : String) : String → Bool :=
  fun subject => jsToLower subject == jsToLower nm

/-- A regex engine for the concrete fixture environments, whose candidate
names are either metacharacter-free — where JavaScript's compiled pattern
is exactly the anchored case-insensitive literal test — or the single
invalid pattern `"("`, on which the `RegExp` constructor throws.  The
fixtures never query it at any other name. -/
def safeOnlyRegexTest (nm : String) : Option (String → Bool) :=
  if regexSafe nm then some (ciLiteralTest nm) else none

/-- The venue-matching query of the orchestrator (server.js:323-328):
`Casino.findOne` with `$or` of (a) the regex built from the raw candidate
name, whose compiled `test` is the argument `test`, and (b) exact equality
with the lowercased and trimmed candidate name, both restricted to the
jurisdiction.  Only the existence of a match is consumed (server.js:330),
so the query is embedded as an existence test. -/
def venueKnown (test : String → Bool) (casinos : List Casino) (ab nm : String) : Bool :=
  casinos.any fun c =>
    c.stateAbbreviation == ab &&
      (test c.name || c.name == jsTrim (jsToLower nm))

/-- The offer-matching rule (server.js:373-383): a discovered offer is
already known when some current offer matches it by name (case-insensitive
substring containment in either direction) or by type (case-insensitive
equality) together with an expected-bonus difference of absolute value
below 50. -/
def offerIsKnown (currentOffers : List StoredOffer) (d : OfferCandidate) : Bool :=
  currentOffers.any fun c =>
    let nameMatch := includesCI c.offerName d.offerName || includesCI d.offerName c.offerName
    let typeMatch := jsToLower c.offerType == jsToLower d.offerType
    let amountMatch := (c.expectedBonus - d.expectedBonus).natAbs < 50
    nameMatch || (typeMatch && amountMatch)

/-- The `newOffers` filter of the orchestrator (server.js:373-383). -/
def newOffersOf (currentOffers : List StoredOffer) (discovered : List OfferCandidate) :
    List OfferCandidate :=
  discovered.filter fun d => !offerIsKnown currentOffers d

/-! ### Completion client and structured extractor -/

/-- Outcome of one completion call (`callClaudeAPI`, server.js:96-120):
either the raw response text or a thrown upstream error. -/
inductive UpstreamResult where
  | failure
  | success (response : String)
deriving Repr, DecidableEq

/-- The JSON-candidate extraction `response.match(/\x7b[\s\S]*\x7d/)`
(server.js:143): the substring from the first opening brace to the last
closing brace, provided the latter comes strictly after the former. -/
def extractBraced (s : String) : Option String :=
  let cs := s.data
  match cs.findIdx? (· == '\x7b') with
  | none => none
  | some i =>
    match cs.reverse.findIdx? (· == '\x7d') with
    | none => none
    | some rj =>
      let j := cs.length - 1 - rj
      if i < j then some (String.mk ((cs.drop i).take (j + 1 - i))) else none

/-- The discovery stage (`discoverCasinosByState`, server.js:122-153).
`parseCasinos` models the platform built-in `JSON.parse` followed by
reading the `casinos` field: `none` models a parse exception, and a parsed
object without a `casinos` array is modelled as `some []`, matching
`parsed.casinos || []`.  Every failure path returns the empty list; the
function never throws. -/
def discoverCasinosByState (parseCasinos : String → Option (List CasinoCandidate))
    (upstream : UpstreamResult) : List CasinoCandidate :=
  match upstream with
  | .failure => []
  | .success resp =>
    match extractBraced resp with
    | none => []
    | some js => (parseCasinos js).getD []

/-- The offer-research stage (`researchCasinoOffers`, server.js:155-188),
with the same extraction and error policy as the discovery stage. -/
def researchCasinoOffers (parseOffers : String → Option (List OfferCandidate))
    (upstream : UpstreamResult) : List OfferCandidate :=
  match upstream with
  | .failure => []
  | .success resp =>
    match extractBraced resp with
    | none => []
    | some js => (parseOffers js).getD []

/-! ### The run orchestrator (`performResearch`, server.js:276-472) -/

/-- The fixed jurisdiction enumeration (server.js:288-293), iterated in
object-literal insertion order. -/
def statesList : List (String × String) :=
  [("NJ", "New Jersey"), ("MI", "Michigan"), ("PA", "Pennsylvania"), ("WV", "West Virginia")]

/-- The display names of the fixed enumeration, in iteration order
(`Object.values(states)`). -/
def stateNames : List String := statesList.map Prod.snd

/-- The venue-matching step for one discovered candidate (server.js:322-328).
Reading `.toLowerCase` of a missing `name` throws a `TypeError`; building
the regex from the name invokes the platform `RegExp` constructor
(`env.regexTest`), which throws a `SyntaxError` for an invalid pattern;
otherwise one `findOne` store operation runs and the result is the
candidate's name together with whether a stored venue matched under the
compiled test. -/
def matchVenueStep (env : Env) (ab : String) (cand : CasinoCandidate)
    (s : RunState) : StepR (String × Bool) :=
  match cand.name with
  | none => .err .typeError s
  | some nm =>
    match env.regexTest nm with
    | none => .err .regexSyntaxError s
    | some test =>
      (dbTick env s).bind fun _ s => .ok (nm, venueKnown test s.store.casinos ab nm) s

/-- Inserts a newly discovered venue (server.js:332-339): the candidate's
fields spread into a casino document with `discovered: true`; the `city`
field is dropped by the schema. -/
def createCasino (nm : String) (cand : CasinoCandidate) (stateName ab : String)
    (s : RunState) : RunState :=
  { s with store := { s.store with casinos := s.store.casinos ++
      [{ name := nm, state := stateName, stateAbbreviation := ab,
         website := cand.website, licenseNumber := cand.licenseNumber,
         discovered := true }] } }

/-- The per-candidate discovery loop (server.js:321-342): matches each
candidate against the store, inserting and logging the unmatched ones, and
returns the accumulated `missing` names in candidate order. -/
def processCandidates (env : Env) (ab stateName : String) :
    List CasinoCandidate → RunState → StepR (List String)
  | [], s => .ok [] s
  | cand :: rest, s =>
    (matchVenueStep env ab cand s).bind fun (nm, known) s =>
      if known then
        processCandidates env ab stateName rest s
      else
        (dbWrite env (createCasino nm cand stateName ab) s).bind fun _ s =>
        (dbWrite env (logPush ("Discovered new casino: " ++ nm)) s).bind fun _ s =>
        (processCandidates env ab stateName rest s).bind fun ms s =>
          .ok (nm :: ms) s

/-- The offer document created for a new offer (server.js:392-407). -/
def offerOfCandidate (casinoName ab stateName : String) (o : OfferCandidate) :
    StoredOffer :=
  { casinoName := casinoName, state := stateName, stateAbbreviation := ab,
    offerName := o.offerName, offerType := o.offerType,
    expectedDeposit := o.expectedDeposit, expectedBonus := o.expectedBonus,
    description := some o.description, terms := some o.terms,
    source := "ai-research" }

/-- The insertion loop for new offers (server.js:391-408): one `create`
store operation per new offer. -/
def createOffers (env : Env) (casinoName ab stateName : String) :
    List OfferCandidate → RunState → StepR Unit
  | [], s => .ok () s
  | o :: rest, s =>
    (dbWrite env (fun st => { st with store := { st.store with
        offers := st.store.offers ++ [offerOfCandidate casinoName ab stateName o] } }) s).bind
      fun _ s => createOffers env casinoName ab stateName rest s

/-- The offer summary used for `currentOffers` and `discoveredOffers`
comparison lists (server.js:413-424). -/
def StoredOffer.view (o : StoredOffer) : OfferView :=
  { name := o.offerName, type := o.offerType,
    deposit := o.expectedDeposit, bonus := o.expectedBonus }

/-- The offer summary used for `discoveredOffers` (server.js:419-424). -/
def OfferCandidate.view (o : OfferCandidate) : OfferView :=
  { name := o.offerName, type := o.offerType,
    deposit := o.expectedDeposit, bonus := o.expectedBonus }

/-- The offer summary used for `newOffers`, which additionally carries the
description (server.js:425-431). -/
def OfferCandidate.viewNew (o : OfferCandidate) : OfferView :=
  { name := o.offerName, type := o.offerType,
    deposit := o.expectedDeposit, bonus := o.expectedBonus,
    description := some o.description }

/-- Processing of one venue of a jurisdiction (server.js:355-438):
increment the venue counter, record the progress pointer, invoke the offer
research stage, load the venue's reference offers, classify the discovered
offers, persist and record the new ones, and write back the offer
counter. -/
def processCasino (env : Env) (ab stateName : String) (casino : Casino)
    (s : RunState) : StepR Unit :=
  let s := { s with locals := { s.locals with
      totalCasinosProcessed := s.locals.totalCasinosProcessed + 1 } }
  (dbWrite env (fun st => { st with run := { st.run with
      currentCasino := some casino.name,
      casinosProcessed := st.locals.totalCasinosProcessed } }) s).bind fun _ s =>
  (dbWrite env (logPush ("Processing: " ++ casino.name)) s).bind fun _ s =>
  let s := { s with trace := s.trace ++ [.researchCall casino.name stateName] }
  let discoveredOffers := env.research casino.name stateName
  (dbWrite env (logPush ("Found " ++ toString discoveredOffers.length ++ " offers")) s).bind
    fun _ s =>
  (dbTick env s).bind fun _ s =>
  let currentOffers := s.store.offers.filter fun o =>
    o.casinoName == casino.name && o.stateAbbreviation == ab && o.source == "internal-api"
  let newOffers := newOffersOf currentOffers discoveredOffers
  let afterNew : RunState → StepR Unit := fun s =>
    dbWrite env (fun st => { st with run := { st.run with
        offersProcessed := st.locals.totalOffersProcessed } }) s
  if newOffers.isEmpty then
    afterNew s
  else
    let s := { s with locals := { s.locals with
        totalNewOffers := s.locals.totalNewOffers + newOffers.length,
        totalOffersProcessed := s.locals.totalOffersProcessed + newOffers.length } }
    (dbWrite env (logPush ("Found " ++ toString newOffers.length ++
        " new offers for " ++ casino.name)) s).bind fun _ s =>
    (createOffers env casino.name ab stateName newOffers s).bind fun _ s =>
    let s := { s with locals := { s.locals with
        offerComparisons := s.locals.offerComparisons ++
          [{ casinoName := casino.name, state := stateName,
             currentOffers := currentOffers.map StoredOffer.view,
             discoveredOffers := discoveredOffers.map OfferCandidate.view,
             newOffers := newOffers.map OfferCandidate.viewNew }] } }
    afterNew s

/-- The per-venue loop of a jurisdiction (server.js:355-438). -/
def processCasinoList (env : Env) (ab stateName : String) :
    List Casino → RunState → StepR Unit
  | [], s => .ok () s
  | c :: rest, s =>
    (processCasino env ab stateName c s).bind fun _ s =>
      processCasinoList env ab stateName rest s

/-- Processing of one jurisdiction (server.js:303-441): record the progress
pointer, invoke discovery, reconcile candidates against the store, record
missing venues, then research offers for every venue of the
jurisdiction. -/
def processJurisdiction (env : Env) (ab stateName : String) (s : RunState) :
    StepR Unit :=
  (dbWrite env (fun st => { st with run := { st.run with
      currentState := some stateName, currentCasino := none } }) s).bind fun _ s =>
  (dbWrite env (logPush ("Researching " ++ stateName ++ " (" ++ ab ++ ")")) s).bind fun _ s =>
  (dbWrite env (logPush ("Discovering casinos in " ++ stateName)) s).bind fun _ s =>
  let s := { s with trace := s.trace ++ [.discoverCall stateName] }
  let discoveredCasinos := env.discover stateName
  (dbWrite env (logPush ("Found " ++ toString discoveredCasinos.length ++
      " casinos in official records")) s).bind fun _ s =>
  (dbTick env s).bind fun _ s =>
  (processCandidates env ab stateName discoveredCasinos s).bind fun missing s =>
  (if missing.isEmpty then
    dbWrite env (logPush ("No missing casinos in " ++ stateName)) s
  else
    let s := { s with locals := { s.locals with
        missingCasinos := s.locals.missingCasinos ++
          [{ state := stateName, casinos := missing }] } }
    dbWrite env (logPush ("Missing casinos in " ++ stateName ++ ": " ++
        toString missing.length)) s).bind fun _ s =>
  (dbTick env s).bind fun _ s =>
  let allCasinos := s.store.casinos.filter fun c => c.stateAbbreviation == ab
  (dbWrite env (logPush ("Researching offers for " ++ toString allCasinos.length ++
      " casinos in " ++ stateName)) s).bind fun _ s =>
  (processCasinoList env ab stateName allCasinos s).bind fun _ s =>
  dbWrite env (logPush ("Completed " ++ stateName ++ " - Processed " ++
      toString allCasinos.length ++ " casinos")) s

/-- The jurisdiction loop (server.js:303-441). -/
def runStates (env : Env) : List (String × String) → RunState → StepR Unit
  | [], s => .ok () s
  | (ab, stateName) :: rest, s =>
    (processJurisdiction env ab stateName s).bind fun _ s => runStates env rest s

/-- Sum of `casinos.length` across missing-venue entries, as computed by
`missingCasinos.reduce((sum, s) => sum + s.casinos.length, 0)`
(server.js:445, 456). -/
def sumMissing (l : List MissingEntry) : Nat :=
  (l.map fun e => e.casinos.length).sum

/-- The final run-record update on success (server.js:448-460). -/
def finalizeCompleted (s : RunState) : RunState :=
  { s with run := { s.run with
      status := .completed, completedAt := true,
      currentState := none, currentCasino := none,
      missingCasinos := s.locals.missingCasinos,
      offerComparisons := s.locals.offerComparisons,
      summary := some {
        totalMissingCasinos := sumMissing s.locals.missingCasinos,
        totalNewOffers := s.locals.totalNewOffers,
        statesProcessed := stateNames } } }

/-- The body of the `try` block of `performResearch` (server.js:286-460):
the initial run fetch, the start log entry, the jurisdiction loop, the
closing log entries and the completion update. -/
def performResearchBody (env : Env) (s : RunState) : StepR Unit :=
  (dbTick env s).bind fun _ s =>
  (dbWrite env (logPush "Research started for all states") s).bind fun _ s =>
  (runStates env statesList s).bind fun _ s =>
  (dbWrite env (logPush "Research completed successfully") s).bind fun _ s =>
  (dbWrite env (logPush ("Total missing casinos: " ++
      toString (sumMissing s.locals.missingCasinos))) s).bind fun _ s =>
  (dbWrite env (logPush ("Total new offers: " ++
      toString s.locals.totalNewOffers)) s).bind fun _ s =>
  dbWrite env finalizeCompleted s

/-- The `catch` handler of `performResearch` (server.js:462-471): append a
failure log entry carrying the error message, then mark the run failed with
completion timestamp set and the transient pointers cleared.  Its two store
writes are modelled as always succeeding. -/
def markFailed (e : RunError) (s : RunState) : RunState :=
  { s with run := { s.run with
      progressLog := s.run.progressLog ++ ["Research failed: " ++ e.message],
      status := .failed, completedAt := true,
      currentState := none, currentCasino := none } }

/-- The full orchestrator (server.js:276-472): run the body and absorb any
escaped error in the `catch` handler. -/
def performResearch (env : Env) (s : RunState) : RunState :=
  match performResearchBody env s with
  | .ok _ s' => s'
  | .err e s' => markFailed e s'

/-- The state at the start of a run: the given store and the freshly created
`in-progress` run record (server.js:268). -/
def initState (store : Store) : RunState :=
  { store := store, run := { status := .inProgress } }

/-- A full run from a given store, as triggered by `POST /api/research/run`
(server.js:267-274). -/
def performResearchFrom (env : Env) (store : Store) : RunState :=
  performResearch env (initState store)

/-- The jurisdictions for which the discovery stage was invoked, in call
order. -/
def discTrace (s : RunState) : List String :=
  s.trace.filterMap fun e =>
    match e with
    | .discoverCall st => some st
    | .researchCall _ _ => none

/-- The venues for which the offer-research stage was invoked, in call
order. -/
def researchTrace (s : RunState) : List String :=
  s.trace.filterMap fun e =>
    match e with
    | .discoverCall _ => none
    | .researchCall c _ => some c

/-- Number of stored offers created by AI research. -/
def aiOfferCount (offers : List StoredOffer) : Nat :=
  (offers.filter fun o => o.source == "ai-research").length

/-- The identity key of a stored venue: lowercased, whitespace-trimmed name
together with the jurisdiction code. -/
def Casino.key (c : Casino) : String × String :=
  (jsTrim (jsToLower c.name), c.stateAbbreviation)

/-- A name whose lowercasing carries no leading or trailing whitespace. -/
def lowerTrimmed (nm : String) : Bool :=
  jsTrim (jsToLower nm) == jsToLower nm

/-! ### Concrete fixtures used by counterexamples and witnesses -/

/-- A reference offer `Welcome Bonus` of type `welcome` with expected bonus
100, used to probe the offer-matching rule. -/
def refWelcome : StoredOffer :=
  { casinoName := "Acme Casino", state := "New Jersey", stateAbbreviation := "NJ",
    offerName := "Welcome Bonus", offerType := "welcome", expectedBonus := 100,
    source := "internal-api" }

/-- A discovered offer of the same type whose bonus differs by 40 and whose
name shares no substring with `Welcome Bonus`. -/
def candDiff40 : OfferCandidate :=
  { offerName := "Crazy Spins", offerType := "welcome", expectedBonus := 140 }

/-- A discovered offer of the same type whose bonus differs by 60 and whose
name shares no substring with `Welcome Bonus`. -/
def candDiff60 : OfferCandidate :=
  { offerName := "Crazy Spins", offerType := "welcome", expectedBonus := 160 }

/-- A stored reference venue `Golden Nugget` in New Jersey. -/
def goldenNugget : Casino :=
  { name := "Golden Nugget", state := "New Jersey", stateAbbreviation := "NJ" }

/-- A store holding only the `Golden Nugget` reference venue. -/
def storeGN : Store := { casinos := [goldenNugget] }

/-- An environment whose New Jersey discovery yields one candidate named
`"  golden nugget  "` (same venue, different case, surrounding whitespace)
and whose other stages yield nothing. -/
def envGN : Env :=
  { discover := fun st =>
      if st == "New Jersey" then [{ name := some "  golden nugget  " }] else [],
    research := fun _ _ => [],
    regexTest := safeOnlyRegexTest }

/-- The end-to-end scenario of the specification: one reference venue with
one reference offer. -/
def storeC8 : Store :=
  { casinos := [{ name := "Acme Casino", state := "New Jersey", stateAbbreviation := "NJ" }],
    offers := [refWelcome] }

/-- The end-to-end scenario's stage results: New Jersey discovery returns
Acme and Beta, Acme research returns a matching welcome offer with bonus
120, Beta research returns a genuinely new offer. -/
def envC8 : Env :=
  { discover := fun st =>
      if st == "New Jersey" then
        [{ name := some "Acme Casino" }, { name := some "Beta Casino" }]
      else [],
    research := fun c st =>
      if st == "New Jersey" && c == "Acme Casino" then
        [{ offerName := "Welcome Bonus", offerType := "welcome",
           expectedDeposit := 100, expectedBonus := 120 }]
      else if st == "New Jersey" && c == "Beta Casino" then
        [{ offerName := "Sign-Up Bonus", offerType := "welcome",
           expectedDeposit := 200, expectedBonus := 200 }]
      else [],
    regexTest := safeOnlyRegexTest }

/-- An environment whose New Jersey discovery yields a candidate without a
`name` field. -/
def envBadName : Env :=
  { discover := fun st => if st == "New Jersey" then [{ name := none }] else [],
    research := fun _ _ => [],
    regexTest := safeOnlyRegexTest }

/-- An environment whose New Jersey discovery yields a candidate whose name
is not a syntactically valid regular expression. -/
def envBadRegex : Env :=
  { discover := fun st => if st == "New Jersey" then [{ name := some "(" }] else [],
    research := fun _ _ => [],
    regexTest := safeOnlyRegexTest }

/-- An environment whose very first store operation fails. -/
def envFault0 : Env :=
  { discover := fun _ => [], research := fun _ _ => [],
    regexTest := safeOnlyRegexTest, faultAt := some 0 }

/-- An environment in which every stage call yields zero results. -/
def envEmpty : Env :=
  { discover := fun _ => [], research := fun _ _ => [],
    regexTest := safeOnlyRegexTest }

/-- The semantics of the JavaScript pattern `/^Golden Nugge.$/i`: thirteen
characters whose first twelve are `golden nugge` ignoring case, the
thirteenth any character other than a line terminator (the `.`
wildcard). -/
def dotNuggetTest : String → Bool := fun subject =>
  let d := (jsToLower subject).data
  d.length == 13 && d.take 12 == "golden nugge".data &&
    !(d.drop 12).any (fun c =>
      c == '\n' || c == '\r' || c == '\u2028' || c == '\u2029')

/-- The semantics of the JavaScript pattern `/^Casino (A)$/i`: the group
`(A)` matches the literal `A`, so the compiled test accepts exactly
`"casino a"` ignoring case — not the literal name `"Casino (A)"`. -/
def parenTest : String → Bool := fun subject =>
  jsToLower subject == "casino a"

/-- A store holding one reference venue whose name contains regex
metacharacters. -/
def storeParen : Store :=
  { casinos := [{ name := "Casino (A)", state := "New Jersey",
                  stateAbbreviation := "NJ" }] }

/-- An environment whose New Jersey discovery returns the same
metacharacter-bearing name `"Casino (A)"`; its regex engine compiles that
(valid) pattern to `parenTest`, as JavaScript does, and behaves literally
on metacharacter-free names. -/
def envParen : Env :=
  { discover := fun st =>
      if st == "New Jersey" then [{ name := some "Casino (A)" }] else [],
    research := fun _ _ => [],
    regexTest := fun nm =>
      if nm == "Casino (A)" then some parenTest else safeOnlyRegexTest nm }

/-- A store holding one reference venue with no reference offers. -/
def storeLag : Store :=
  { casinos := [{ name := "Acme Casino", state := "New Jersey",
                  stateAbbreviation := "NJ" }] }

/-- An environment whose offer research finds one new offer for the one
stored venue and whose seventeenth store operation — the `offersProcessed`
write-back that follows the offer inserts (server.js:435-437) — fails. -/
def envLag : Env :=
  { discover := fun _ => [],
    research := fun c st =>
      if st == "New Jersey" && c == "Acme Casino" then
        [{ offerName := "Lossback Special", offerType := "lossback",
           expectedDeposit := 0, expectedBonus := 500 }]
      else [],
    regexTest := safeOnlyRegexTest,
    faultAt := some 16 }

/-! ### Invariants -/

/-- Sum of `newOffers.length` across comparison entries. -/
def sumNewOffers (l : List ComparisonEntry) : Nat :=
  (l.map fun e => e.newOffers.length).sum

/-- The bookkeeping invariant of the offer counters: the running
`totalNewOffers` equals the sum of `newOffers` lengths over the recorded
comparison entries, every recorded comparison entry is non-empty, the two
offer counters agree, the run record's `offersProcessed` field mirrors the
local counter, and the number of stored AI-research offers exceeds the
baseline `base` by exactly the counter. -/
def SyncInv (base : Nat) (s : RunState) : Prop :=
  s.locals.totalNewOffers = sumNewOffers s.locals.offerComparisons ∧
  (∀ e ∈ s.locals.offerComparisons, e.newOffers ≠ []) ∧
  s.locals.totalOffersProcessed = s.locals.totalNewOffers ∧
  s.run.offersProcessed = s.locals.totalOffersProcessed ∧
  aiOfferCount s.store.offers = base + s.locals.totalNewOffers

/-- The venue-identity invariant: stored venue keys are pairwise distinct
and every stored venue name is free of whitespace around its lowercasing. -/
def CInv (s : RunState) : Prop :=
  (s.store.casinos.Pairwise fun a b => a.key ≠ b.key) ∧
  ∀ c ∈ s.store.casinos, lowerTrimmed c.name = true

/-- All candidate names of a discovery result are free of whitespace around
their lowercasings and free of regex metacharacters. -/
def candsTrimmed (cands : List CasinoCandidate) : Prop :=
  ∀ cand ∈ cands, ∀ nm, cand.name = some nm →
    lowerTrimmed nm = true ∧ regexSafe nm = true

/-- All discovery results of an environment have trimmed,
metacharacter-free candidate names. -/
def envTrimmed (env : Env) : Prop :=
  ∀ st, candsTrimmed (env.discover st)

/-- The environment's regex engine agrees with JavaScript on
metacharacter-free names: the pattern `'^' + nm + '$'` with flag `'i'`
compiles, and its `test` is the anchored case-insensitive literal test. -/
def envRegexFaithful (env : Env) : Prop :=
  ∀ nm, regexSafe nm = true → ∃ t, env.regexTest nm = some t ∧
    ∀ subject, t subject = (jsToLower subject == jsToLower nm)

/-! ## Theorems -/

/-! ### Infrastructure lemmas about the step monad -/

/-- Success of a sequenced step factors through success of its head. -/
theorem bind_ok_elim {α β : Type} {x : StepR α} {g : α → RunState → StepR β}
    {b : β} {s' : RunState} (h : x.bind g = .ok b s') :
    ∃ a s₁, x = .ok a s₁ ∧ g a s₁ = .ok b s' := by
  cases x with
  | ok a s => exact ⟨a, s, rfl, h⟩
  | err e s => cases h

/-- Failure of a sequenced step comes from its head or its tail. -/
theorem bind_err_elim {α β : Type} {x : StepR α} {g : α → RunState → StepR β}
    {e : RunError} {s' : RunState} (h : x.bind g = .err e s') :
    x = .err e s' ∨ ∃ a s₁, x = .ok a s₁ ∧ g a s₁ = .err e s' := by
  cases x with
  | ok a s => exact Or.inr ⟨a, s, rfl, h⟩
  | err e₁ s => exact Or.inl (by cases h; rfl)

/-- A fault-free environment never fails a store operation. -/
theorem dbTick_none {env : Env} (h : env.faultAt = none) (s : RunState) :
    dbTick env s = .ok () { s with opCount := s.opCount + 1 } := by
  simp [dbTick, h]

/-- A store operation either faults, leaving only the counter bumped, or
succeeds with the counter bumped. -/
theorem dbTick_cases (env : Env) (s : RunState) :
    dbTick env s = .err .storeError { s with opCount := s.opCount + 1 } ∨
    dbTick env s = .ok () { s with opCount := s.opCount + 1 } := by
  by_cases h : env.faultAt = some s.opCount <;> simp [dbTick, h]

/-- A faulting store operation implies the fault schedule is non-empty. -/
theorem dbTick_err_elim {env : Env} {s : RunState} {e : RunError} {s' : RunState}
    (h : dbTick env s = .err e s') :
    env.faultAt ≠ none ∧ s' = { s with opCount := s.opCount + 1 } := by
  by_cases hf : env.faultAt = some s.opCount
  · simp only [dbTick, hf, if_pos] at h
    cases h
    exact ⟨by simp [hf], rfl⟩
  · simp [dbTick, hf] at h

/-- Shape of a successful store write. -/
theorem dbWrite_ok_elim {env : Env} {f : RunState → RunState} {s : RunState}
    {a : Unit} {s' : RunState} (h : dbWrite env f s = .ok a s') :
    s' = f { s with opCount := s.opCount + 1 } := by
  rcases dbTick_cases env s with ht | ht <;>
    simp only [dbWrite, ht, StepR.bind] at h
  · cases h
  · cases h; rfl

/-- Shape of a failing store write: the fault schedule is non-empty and the
write's effect was not applied. -/
theorem dbWrite_err_elim {env : Env} {f : RunState → RunState} {s : RunState}
    {e : RunError} {s' : RunState} (h : dbWrite env f s = .err e s') :
    env.faultAt ≠ none ∧ s' = { s with opCount := s.opCount + 1 } := by
  rcases dbTick_cases env s with ht | ht <;>
    simp only [dbWrite, ht, StepR.bind] at h
  · refine ⟨?_, by cases h; rfl⟩
    intro hnone
    rw [dbTick_none hnone] at ht
    cases ht
  · cases h

/-- A fault-free store write succeeds with its effect applied. -/
theorem dbWrite_none {env : Env} (h : env.faultAt = none)
    (f : RunState → RunState) (s : RunState) :
    dbWrite env f s = .ok () (f { s with opCount := s.opCount + 1 }) := by
  rw [dbWrite, dbTick_none h]
  rfl

/-! ### Counting and trace helper lemmas -/

/-- AI-offer counting distributes over appends. -/
theorem aiOfferCount_append (a b : List StoredOffer) :
    aiOfferCount (a ++ b) = aiOfferCount a + aiOfferCount b := by
  simp [aiOfferCount, List.filter_append]

/-- Every offer document created by a run counts as an AI-research
offer. -/
theorem aiOfferCount_created (cn ab st : String) (l : List OfferCandidate) :
    aiOfferCount (l.map (offerOfCandidate cn ab st)) = l.length := by
  induction l with
  | nil => rfl
  | cons o rest ih => simpa [aiOfferCount, offerOfCandidate] using ih

/-- Sum of new-offer lengths distributes over appends. -/
theorem sumNewOffers_append (a b : List ComparisonEntry) :
    sumNewOffers (a ++ b) = sumNewOffers a + sumNewOffers b := by
  simp [sumNewOffers]

/-- Recording an offer-research call leaves the discovery trace
unchanged. -/
theorem discTrace_push_research (s : RunState) (c st : String) :
    discTrace { s with trace := s.trace ++ [.researchCall c st] } = discTrace s := by
  simp [discTrace, List.filterMap_append]

/-- Recording an offer-research call appends the venue to the research
trace. -/
theorem researchTrace_push_research (s : RunState) (c st : String) :
    researchTrace { s with trace := s.trace ++ [.researchCall c st] } =
      researchTrace s ++ [c] := by
  simp [researchTrace, List.filterMap_append]

/-- Recording a discovery call appends the jurisdiction to the discovery
trace. -/
theorem discTrace_push_discover (s : RunState) (st : String) :
    discTrace { s with trace := s.trace ++ [.discoverCall st] } =
      discTrace s ++ [st] := by
  simp [discTrace, List.filterMap_append]

/-- Recording a discovery call leaves the research trace unchanged. -/
theorem researchTrace_push_discover (s : RunState) (st : String) :
    researchTrace { s with trace := s.trace ++ [.discoverCall st] } =
      researchTrace s := by
  simp [researchTrace, List.filterMap_append]

/-! ### Master lemmas for the orchestrator's sub-functions -/

/-- Successful offer insertion: the run record, locals and trace are
untouched, the casino collection is untouched, and exactly the created
offer documents are appended. -/
theorem createOffers_ok (env : Env) (cn ab st : String) :
    ∀ (l : List OfferCandidate) (s : RunState) (a : Unit) (s' : RunState),
      createOffers env cn ab st l s = .ok a s' →
      s'.run = s.run ∧ s'.locals = s.locals ∧ s'.trace = s.trace ∧
      s'.store.casinos = s.store.casinos ∧
      s'.store.offers = s.store.offers ++ l.map (offerOfCandidate cn ab st)
  | [], s, a, s', h => by
    cases h
    simp [createOffers]
  | o :: rest, s, a, s', h => by
    rw [createOffers] at h
    obtain ⟨u, s₁, hw, hrest⟩ := bind_ok_elim h
    have hs₁ := dbWrite_ok_elim hw
    subst hs₁
    obtain ⟨h1, h2, h3, h4, h5⟩ := createOffers_ok env cn ab st rest _ _ _ hrest
    refine ⟨by simpa using h1, by simpa using h2, by simpa using h3,
      by simpa using h4, ?_⟩
    simp only [h5]
    simp

/-- Failing offer insertion: only possible with a non-empty fault schedule,
and the run record, locals, trace and casino collection are untouched at
the failure state. -/
theorem createOffers_err (env : Env) (cn ab st : String) :
    ∀ (l : List OfferCandidate) (s : RunState) (e : RunError) (s' : RunState),
      createOffers env cn ab st l s = .err e s' →
      env.faultAt ≠ none ∧ s'.run = s.run ∧ s'.locals = s.locals ∧
      s'.trace = s.trace ∧ s'.store.casinos = s.store.casinos
  | [], s, e, s', h => by cases h
  | o :: rest, s, e, s', h => by
    rw [createOffers] at h
    rcases bind_err_elim h with hw | ⟨u, s₁, hw, hrest⟩
    · obtain ⟨hf, hs⟩ := dbWrite_err_elim hw
      subst hs
      exact ⟨hf, rfl, rfl, rfl, rfl⟩
    · have hs₁ := dbWrite_ok_elim hw
      subst hs₁
      obtain ⟨hf, h1, h2, h3, h4⟩ := createOffers_err env cn ab st rest _ _ _ hrest
      exact ⟨hf, by simpa using h1, by simpa using h2, by simpa using h3,
        by simpa using h4⟩

/-- Successful venue processing: the casino collection and the discovery
trace are untouched, the venue is appended to the research trace, the run
summary is untouched, and the offer-counter invariant is preserved. -/
theorem processCasino_ok (env : Env) (ab st : String) (c : Casino)
    (s : RunState) (a : Unit) (s' : RunState)
    (h : processCasino env ab st c s = .ok a s') :
    s'.store.casinos = s.store.casinos ∧
    discTrace s' = discTrace s ∧
    researchTrace s' = researchTrace s ++ [c.name] ∧
    s'.run.summary = s.run.summary ∧
    ∀ b, SyncInv b s → SyncInv b s' := by
  simp only [processCasino] at h
  obtain ⟨u1, s1, hw1, h⟩ := bind_ok_elim h
  have e1 := dbWrite_ok_elim hw1; subst e1
  obtain ⟨u2, s2, hw2, h⟩ := bind_ok_elim h
  have e2 := dbWrite_ok_elim hw2; subst e2
  obtain ⟨u3, s3, hw3, h⟩ := bind_ok_elim h
  have e3 := dbWrite_ok_elim hw3; subst e3
  obtain ⟨u4, s4, hw4, h⟩ := bind_ok_elim h
  rcases dbTick_cases env _ with ht | ht <;> rw [ht] at hw4
  · cases hw4
  cases hw4
  dsimp only [logPush] at h
  split at h
  case isTrue hempty =>
    have e5 := dbWrite_ok_elim h; subst e5
    refine ⟨by simp [logPush], ?_, ?_, by simp [logPush], ?_⟩
    · simp [logPush, discTrace, List.filterMap_append]
    · simp [logPush, researchTrace, List.filterMap_append]
    · intro b hs
      obtain ⟨c1, c2, c3, c4, c5⟩ := hs
      exact ⟨by simpa [logPush] using c1, by simpa [logPush] using c2, by simpa [logPush] using c3,
        by simp [logPush], by simpa [logPush] using c5⟩
  case isFalse hempty =>
    obtain ⟨u5, s5, hw5, h⟩ := bind_ok_elim h
    have e5 := dbWrite_ok_elim hw5; subst e5
    obtain ⟨u6, s6, hco, h⟩ := bind_ok_elim h
    obtain ⟨g1, g2, g3, g4, g5⟩ := createOffers_ok env _ _ _ _ _ _ _ hco
    have e7 := dbWrite_ok_elim h; subst e7
    dsimp only [logPush] at g1 g2 g3 g4 g5 ⊢
    refine ⟨by simp [g4], ?_, ?_, by simp [g1], ?_⟩
    · simp only [discTrace] at *
      simp [logPush, g3, List.filterMap_append]
    · simp only [researchTrace] at *
      simp [logPush, g3, List.filterMap_append]
    · intro b hs
      obtain ⟨c1, c2, c3, c4, c5⟩ := hs
      have hk : ¬ (newOffersOf (List.filter
          (fun o => o.casinoName == c.name && o.stateAbbreviation == ab &&
            o.source == "internal-api") s.store.offers)
          (env.research c.name st)).isEmpty = true := by
        simpa using hempty
      refine ⟨?_, ?_, ?_, by simp [g2], ?_⟩
      · simp only [g2]
        simp [sumNewOffers_append, sumNewOffers, c1]
      · intro e he
        simp only [g2] at he
        simp only [List.mem_append, List.mem_singleton] at he
        rcases he with he | he
        · exact c2 e (by simpa using he)
        · subst he
          simp only [ne_eq, List.map_eq_nil_iff]
          intro hnil
          exact hk (by simp [hnil])
      · simp only [g2]
        simp
        exact c3
      · simp only [g5, g2]
        simp [aiOfferCount_append, aiOfferCount_created, c5]
        omega

/-- Failing venue processing: only possible with a non-empty fault
schedule; the casino collection, the discovery trace and the run summary
are untouched at the failure state. -/
theorem processCasino_err (env : Env) (ab st : String) (c : Casino)
    (s : RunState) (e : RunError) (s' : RunState)
    (h : processCasino env ab st c s = .err e s') :
    env.faultAt ≠ none ∧
    s'.store.casinos = s.store.casinos ∧
    discTrace s' = discTrace s ∧
    s'.run.summary = s.run.summary := by
  simp only [processCasino] at h
  rcases bind_err_elim h with hw | ⟨u1, s1, hw1, h⟩
  · obtain ⟨hf, hs⟩ := dbWrite_err_elim hw; subst hs
    exact ⟨hf, by simp [logPush], by simp [logPush, discTrace], by simp [logPush]⟩
  have e1 := dbWrite_ok_elim hw1; subst e1
  rcases bind_err_elim h with hw | ⟨u2, s2, hw2, h⟩
  · obtain ⟨hf, hs⟩ := dbWrite_err_elim hw; subst hs
    exact ⟨hf, by simp [logPush], by simp [logPush, discTrace], by simp [logPush]⟩
  have e2 := dbWrite_ok_elim hw2; subst e2
  rcases bind_err_elim h with hw | ⟨u3, s3, hw3, h⟩
  · obtain ⟨hf, hs⟩ := dbWrite_err_elim hw; subst hs
    exact ⟨hf, by simp [logPush], by simp [logPush, discTrace, List.filterMap_append], by simp [logPush]⟩
  have e3 := dbWrite_ok_elim hw3; subst e3
  rcases bind_err_elim h with hw | ⟨u4, s4, hw4, h⟩
  · obtain ⟨hf, hs⟩ := dbTick_err_elim hw; subst hs
    exact ⟨hf, by simp [logPush], by simp [logPush, discTrace, List.filterMap_append], by simp [logPush]⟩
  rcases dbTick_cases env _ with ht | ht <;> rw [ht] at hw4
  · cases hw4
  cases hw4
  split at h
  case isTrue hempty =>
    obtain ⟨hf, hs⟩ := dbWrite_err_elim h; subst hs
    exact ⟨hf, by simp [logPush], by simp [logPush, discTrace, List.filterMap_append], by simp [logPush]⟩
  case isFalse hempty =>
    rcases bind_err_elim h with hw | ⟨u5, s5, hw5, h⟩
    · obtain ⟨hf, hs⟩ := dbWrite_err_elim hw; subst hs
      exact ⟨hf, by simp [logPush], by simp [logPush, discTrace, List.filterMap_append], by simp [logPush]⟩
    have e5 := dbWrite_ok_elim hw5; subst e5
    rcases bind_err_elim h with hco | ⟨u6, s6, hco, h⟩
    · obtain ⟨hf, g1, g2, g3, g4⟩ := createOffers_err env _ _ _ _ _ _ _ hco
      refine ⟨hf, by simpa [logPush] using g4, ?_, by simp [logPush, g1]⟩
      simp only [discTrace] at *
      simp [logPush, g3, List.filterMap_append]
    · obtain ⟨g1, g2, g3, g4, g5⟩ := createOffers_ok env _ _ _ _ _ _ _ hco
      obtain ⟨hf, hs⟩ := dbWrite_err_elim h; subst hs
      refine ⟨hf, by simpa [logPush] using g4, ?_, by simp [logPush, g1]⟩
      simp only [discTrace] at *
      simp [logPush, g3, List.filterMap_append]

/-- Shape of a successful venue-matching step: the candidate had a name,
the pattern compiled to some test, one store operation ran, and the result
reports whether a stored venue of the jurisdiction matches under that
test. -/
theorem matchVenueStep_ok_elim {env : Env} {ab : String} {cand : CasinoCandidate}
    {s : RunState} {nm : String} {known : Bool} {s' : RunState}
    (h : matchVenueStep env ab cand s = .ok (nm, known) s') :
    cand.name = some nm ∧ s' = { s with opCount := s.opCount + 1 } ∧
    ∃ test, env.regexTest nm = some test ∧
      known = venueKnown test s.store.casinos ab nm := by
  match hn : cand.name with
  | none =>
    simp only [matchVenueStep, hn] at h
    cases h
  | some nm₀ =>
    simp only [matchVenueStep, hn] at h
    cases henv : env.regexTest nm₀ with
    | none =>
      simp only [henv] at h
      cases h
    | some test =>
      simp only [henv] at h
      rcases dbTick_cases env s with ht | ht <;> rw [ht] at h
      · cases h
      · cases h
        exact ⟨rfl, rfl, test, henv, rfl⟩

/-- Shape of a failing venue-matching step: at most the operation counter
changed. -/
theorem matchVenueStep_err_elim {env : Env} {ab : String} {cand : CasinoCandidate}
    {s : RunState} {e : RunError} {s' : RunState}
    (h : matchVenueStep env ab cand s = .err e s') :
    s'.run = s.run ∧ s'.store = s.store ∧ s'.locals = s.locals ∧
    s'.trace = s.trace := by
  match hn : cand.name with
  | none =>
    simp only [matchVenueStep, hn] at h
    cases h
    exact ⟨rfl, rfl, rfl, rfl⟩
  | some nm₀ =>
    simp only [matchVenueStep, hn] at h
    cases henv : env.regexTest nm₀ with
    | none =>
      simp only [henv] at h
      cases h
      exact ⟨rfl, rfl, rfl, rfl⟩
    | some test =>
      simp only [henv] at h
      rcases dbTick_cases env s with ht | ht <;> rw [ht] at h
      · cases h
        exact ⟨rfl, rfl, rfl, rfl⟩
      · cases h

/-- Inserting a venue that the matching step did not find preserves the
venue-identity invariant, provided its name is trimmed and its compiled
pattern is the case-insensitive literal test. -/
theorem create_keeps_CInv {s : RunState} {nm : String} (cand : CasinoCandidate)
    (st ab : String) (test : String → Bool) (hnm : lowerTrimmed nm = true)
    (hbeh : ∀ subject, test subject = (jsToLower subject == jsToLower nm))
    (hkn : venueKnown test s.store.casinos ab nm = false)
    (hC : CInv s) : CInv (createCasino nm cand st ab s) := by
  obtain ⟨hpw, htr⟩ := hC
  have hnm' : jsTrim (jsToLower nm) = jsToLower nm := by
    simpa [lowerTrimmed] using hnm
  have hall : ∀ c ∈ s.store.casinos,
      (c.stateAbbreviation == ab &&
        (test c.name || c.name == jsTrim (jsToLower nm))) = false := by
    simpa [venueKnown, List.any_eq_false] using hkn
  constructor
  · rw [createCasino]
    simp only [List.pairwise_append, List.pairwise_singleton, List.mem_singleton]
    refine ⟨hpw, trivial, ?_⟩
    intro a ha b hb
    cases hb
    intro hkey
    have hat : jsTrim (jsToLower a.name) = jsToLower a.name := by
      simpa [lowerTrimmed] using htr a ha
    have h1 : jsTrim (jsToLower a.name) = jsTrim (jsToLower nm) :=
      congrArg Prod.fst hkey
    have h2 : a.stateAbbreviation = ab := congrArg Prod.snd hkey
    have h3 : jsToLower a.name = jsToLower nm := by
      rw [← hat, h1, hnm']
    have h4 : test a.name = true := by
      rw [hbeh a.name, h3]
      simp
    have := hall a ha
    rw [h2, h4] at this
    simp at this
  · rw [createCasino]
    intro c hc
    rcases List.mem_append.1 hc with hc | hc
    · exact htr c hc
    · rcases List.mem_singleton.1 hc with rfl
      exact hnm

/-- Successful candidate reconciliation: only the casino collection may
change; the offer collection, the locals, the traces, the offer counter and
the run summary are untouched, and the venue-identity invariant is
preserved when the regex engine is faithful and the candidate names are
trimmed and metacharacter-free. -/
theorem processCandidates_ok (env : Env) (ab st : String) :
    ∀ (cands : List CasinoCandidate) (s : RunState) (ms : List String)
      (s' : RunState),
      processCandidates env ab st cands s = .ok ms s' →
      s'.run.summary = s.run.summary ∧
      s'.run.offersProcessed = s.run.offersProcessed ∧
      s'.store.offers = s.store.offers ∧
      s'.locals = s.locals ∧
      s'.trace = s.trace ∧
      (envRegexFaithful env → candsTrimmed cands → CInv s → CInv s')
  | [], s, ms, s', h => by
    cases h
    exact ⟨rfl, rfl, rfl, rfl, rfl, fun _ _ hc => hc⟩
  | cand :: rest, s, ms, s', h => by
    rw [processCandidates] at h
    obtain ⟨⟨nm, known⟩, s₁, hm, h⟩ := bind_ok_elim h
    obtain ⟨hname, hs₁, test, htesteq, hknown⟩ := matchVenueStep_ok_elim hm
    subst hs₁
    dsimp only [] at h
    by_cases hk : known = true
    · rw [if_pos hk] at h
      obtain ⟨h1, h2, h3, h4, h5, h6⟩ := processCandidates_ok env ab st rest _ _ _ h
      refine ⟨by simpa using h1, by simpa using h2, by simpa using h3,
        by simpa using h4, by simpa using h5, ?_⟩
      intro hfaith htrim hC
      exact h6 hfaith (fun c hc => htrim c (List.mem_cons_of_mem _ hc)) (by exact hC)
    · rw [if_neg hk] at h
      obtain ⟨u1, s₂, hw1, h⟩ := bind_ok_elim h
      have e1 := dbWrite_ok_elim hw1; subst e1
      obtain ⟨u2, s₃, hw2, h⟩ := bind_ok_elim h
      have e2 := dbWrite_ok_elim hw2; subst e2
      obtain ⟨ms₀, s₄, hrec, h⟩ := bind_ok_elim h
      cases h
      obtain ⟨h1, h2, h3, h4, h5, h6⟩ := processCandidates_ok env ab st rest _ _ _ hrec
      refine ⟨by simpa [createCasino] using h1, by simpa [createCasino] using h2,
        by simpa [createCasino] using h3, by simpa [createCasino] using h4,
        by simpa [createCasino] using h5, ?_⟩
      intro hfaith htrim hC
      obtain ⟨hnm, hsafe⟩ := htrim cand (List.mem_cons_self _ _) nm hname
      obtain ⟨t, ht1, ht2⟩ := hfaith nm hsafe
      have htt : t = test := by
        rw [ht1] at htesteq
        exact Option.some.inj htesteq
      have hbeh : ∀ subject, test subject = (jsToLower subject == jsToLower nm) :=
        htt ▸ ht2
      have hkn : venueKnown test s.store.casinos ab nm = false := by
        rw [← hknown]
        revert hk
        cases known <;> simp
      have hC₂ := create_keeps_CInv (s := { s with opCount := s.opCount + 1 })
        cand st ab test hnm hbeh (by simpa using hkn) (by exact hC)
      apply h6 hfaith (fun c hc => htrim c (List.mem_cons_of_mem _ hc))
      simpa [CInv, createCasino] using hC₂

/-- Failing candidate reconciliation: same frame as the successful case,
and the venue-identity invariant still holds at the failure state. -/
theorem processCandidates_err (env : Env) (ab st : String) :
    ∀ (cands : List CasinoCandidate) (s : RunState) (e : RunError)
      (s' : RunState),
      processCandidates env ab st cands s = .err e s' →
      s'.run.summary = s.run.summary ∧
      s'.run.offersProcessed = s.run.offersProcessed ∧
      s'.store.offers = s.store.offers ∧
      s'.locals = s.locals ∧
      s'.trace = s.trace ∧
      (envRegexFaithful env → candsTrimmed cands → CInv s → CInv s')
  | [], s, e, s', h => by cases h
  | cand :: rest, s, e, s', h => by
    rw [processCandidates] at h
    rcases bind_err_elim h with hm | ⟨⟨nm, known⟩, s₁, hm, h⟩
    · obtain ⟨h1, h2, h3, h4⟩ := matchVenueStep_err_elim hm
      exact ⟨by rw [h1], by rw [h1], by rw [h2], h3, h4, fun _ _ hc => by
        simpa [CInv, h2] using hc⟩
    obtain ⟨hname, hs₁, test, htesteq, hknown⟩ := matchVenueStep_ok_elim hm
    subst hs₁
    dsimp only [] at h
    by_cases hk : known = true
    · rw [if_pos hk] at h
      obtain ⟨h1, h2, h3, h4, h5, h6⟩ := processCandidates_err env ab st rest _ _ _ h
      refine ⟨by simpa using h1, by simpa using h2, by simpa using h3,
        by simpa using h4, by simpa using h5, ?_⟩
      intro hfaith htrim hC
      exact h6 hfaith (fun c hc => htrim c (List.mem_cons_of_mem _ hc)) (by exact hC)
    · rw [if_neg hk] at h
      have hkn : venueKnown test s.store.casinos ab nm = false := by
        rw [← hknown]
        revert hk
        cases known <;> simp
      have hbehOf : envRegexFaithful env → candsTrimmed (cand :: rest) →
          lowerTrimmed nm = true ∧
          ∀ subject, test subject = (jsToLower subject == jsToLower nm) := by
        intro hfaith htrim
        obtain ⟨hnm, hsafe⟩ := htrim cand (List.mem_cons_self _ _) nm hname
        obtain ⟨t, ht1, ht2⟩ := hfaith nm hsafe
        have htt : t = test := by
          rw [ht1] at htesteq
          exact Option.some.inj htesteq
        exact ⟨hnm, htt ▸ ht2⟩
      rcases bind_err_elim h with hw | ⟨u1, s₂, hw1, h⟩
      · obtain ⟨hf, hs⟩ := dbWrite_err_elim hw; subst hs
        exact ⟨rfl, rfl, rfl, rfl, rfl, fun _ _ hc => by simpa [CInv] using hc⟩
      have e1 := dbWrite_ok_elim hw1; subst e1
      rcases bind_err_elim h with hw | ⟨u2, s₃, hw2, h⟩
      · obtain ⟨hf, hs⟩ := dbWrite_err_elim hw; subst hs
        refine ⟨by simp [createCasino], by simp [createCasino],
          by simp [createCasino], by simp [createCasino],
          by simp [createCasino], ?_⟩
        intro hfaith htrim hC
        obtain ⟨hnm, hbeh⟩ := hbehOf hfaith htrim
        have hC₂ := create_keeps_CInv (s := { s with opCount := s.opCount + 1 })
          cand st ab test hnm hbeh (by simpa using hkn) (by exact hC)
        simpa [CInv, createCasino] using hC₂
      have e2 := dbWrite_ok_elim hw2; subst e2
      rcases bind_err_elim h with hrec | ⟨ms₀, s₄, hrec, h⟩
      · obtain ⟨h1, h2, h3, h4, h5, h6⟩ := processCandidates_err env ab st rest _ _ _ hrec
        refine ⟨by simpa [createCasino] using h1, by simpa [createCasino] using h2,
          by simpa [createCasino] using h3, by simpa [createCasino] using h4,
          by simpa [createCasino] using h5, ?_⟩
        intro hfaith htrim hC
        obtain ⟨hnm, hbeh⟩ := hbehOf hfaith htrim
        have hC₂ := create_keeps_CInv (s := { s with opCount := s.opCount + 1 })
          cand st ab test hnm hbeh (by simpa using hkn) (by exact hC)
        apply h6 hfaith (fun c hc => htrim c (List.mem_cons_of_mem _ hc))
        simpa [CInv, createCasino] using hC₂
      · cases h

/-- The offer-counter invariant depends only on the comparison list, the
two offer counters of the locals, the offer counter of the run record and
the stored offers. -/
theorem SyncInv_of_eq {s s' : RunState} {b : Nat}
    (hcomp : s'.locals.offerComparisons = s.locals.offerComparisons)
    (hnew : s'.locals.totalNewOffers = s.locals.totalNewOffers)
    (hoff : s'.locals.totalOffersProcessed = s.locals.totalOffersProcessed)
    (ho : s'.run.offersProcessed = s.run.offersProcessed)
    (hf : s'.store.offers = s.store.offers) (h : SyncInv b s) : SyncInv b s' := by
  obtain ⟨c1, c2, c3, c4, c5⟩ := h
  exact ⟨by rw [hcomp, hnew]; exact c1, by rw [hcomp]; exact c2,
    by rw [hnew, hoff]; exact c3, by rw [ho, hoff]; exact c4,
    by rw [hf, hnew]; exact c5⟩

/-- The venue-identity invariant depends only on the stored casinos. -/
theorem CInv_of_eq {s s' : RunState}
    (hc : s'.store.casinos = s.store.casinos) (h : CInv s) : CInv s' := by
  obtain ⟨h1, h2⟩ := h
  exact ⟨by rw [hc]; exact h1, by rw [hc]; exact h2⟩

/-- Successful venue loop: the casino collection and discovery trace are
untouched, the venues are appended to the research trace in order, the
summary is untouched and the offer-counter invariant is preserved. -/
theorem processCasinoList_ok (env : Env) (ab st : String) :
    ∀ (l : List Casino) (s : RunState) (a : Unit) (s' : RunState),
      processCasinoList env ab st l s = .ok a s' →
      s'.store.casinos = s.store.casinos ∧
      discTrace s' = discTrace s ∧
      researchTrace s' = researchTrace s ++ l.map (fun c => c.name) ∧
      s'.run.summary = s.run.summary ∧
      ∀ b, SyncInv b s → SyncInv b s'
  | [], s, a, s', h => by
    cases h
    exact ⟨rfl, rfl, by simp, rfl, fun _ hb => hb⟩
  | c :: rest, s, a, s', h => by
    rw [processCasinoList] at h
    obtain ⟨u, s₁, hc, h⟩ := bind_ok_elim h
    obtain ⟨g1, g2, g3, g4, g5⟩ := processCasino_ok env ab st c s _ _ hc
    obtain ⟨h1, h2, h3, h4, h5⟩ := processCasinoList_ok env ab st rest _ _ _ h
    refine ⟨by rw [h1, g1], by rw [h2, g2], ?_, by rw [h4, g4], ?_⟩
    · rw [h3, g3]
      simp
    · intro b hb
      exact h5 b (g5 b hb)

/-- Failing venue loop: only possible with a non-empty fault schedule; the
casino collection, discovery trace and summary are untouched. -/
theorem processCasinoList_err (env : Env) (ab st : String) :
    ∀ (l : List Casino) (s : RunState) (e : RunError) (s' : RunState),
      processCasinoList env ab st l s = .err e s' →
      env.faultAt ≠ none ∧
      s'.store.casinos = s.store.casinos ∧
      discTrace s' = discTrace s ∧
      s'.run.summary = s.run.summary
  | [], s, e, s', h => by cases h
  | c :: rest, s, e, s', h => by
    rw [processCasinoList] at h
    rcases bind_err_elim h with hc | ⟨u, s₁, hc, h⟩
    · exact processCasino_err env ab st c s e s' hc
    · obtain ⟨g1, g2, g3, g4, g5⟩ := processCasino_ok env ab st c s _ _ hc
      obtain ⟨h0, h1, h2, h3⟩ := processCasinoList_err env ab st rest _ _ _ h
      exact ⟨h0, by rw [h1, g1], by rw [h2, g2], by rw [h3, g4]⟩

/-- Equal traces give equal discovery traces. -/
theorem discTrace_congr {s s' : RunState} (h : s'.trace = s.trace) :
    discTrace s' = discTrace s := by
  simp [discTrace, h]

/-- Equal traces give equal research traces. -/
theorem researchTrace_congr {s s' : RunState} (h : s'.trace = s.trace) :
    researchTrace s' = researchTrace s := by
  simp [researchTrace, h]

/-- Successful jurisdiction processing: exactly one discovery call is
appended to the discovery trace, the summary is untouched, the
venue-identity and offer-counter invariants are preserved, and when the
discovery stage returned no candidates the casino collection is untouched
and the research trace grows by exactly the stored venues of the
jurisdiction. -/
theorem processJurisdiction_ok (env : Env) (ab st : String) (s : RunState)
    (a : Unit) (s' : RunState)
    (h : processJurisdiction env ab st s = .ok a s') :
    discTrace s' = discTrace s ++ [st] ∧
    s'.run.summary = s.run.summary ∧
    (envRegexFaithful env → candsTrimmed (env.discover st) → CInv s → CInv s') ∧
    (∀ b, SyncInv b s → SyncInv b s') ∧
    (env.discover st = [] →
      s'.store.casinos = s.store.casinos ∧
      researchTrace s' = researchTrace s ++
        (s.store.casinos.filter fun c => c.stateAbbreviation == ab).map
          (fun c => c.name)) := by
  rw [processJurisdiction] at h
  obtain ⟨u1, s1, hw1, h⟩ := bind_ok_elim h
  have e1 := dbWrite_ok_elim hw1; subst e1
  obtain ⟨u2, s2, hw2, h⟩ := bind_ok_elim h
  have e2 := dbWrite_ok_elim hw2; subst e2
  obtain ⟨u3, s3, hw3, h⟩ := bind_ok_elim h
  have e3 := dbWrite_ok_elim hw3; subst e3
  obtain ⟨u5, s5, hw5, h⟩ := bind_ok_elim h
  have e5 := dbWrite_ok_elim hw5; subst e5
  obtain ⟨u6, s6, hw6, h⟩ := bind_ok_elim h
  rcases dbTick_cases env _ with ht | ht <;> rw [ht] at hw6
  · cases hw6
  cases hw6
  obtain ⟨missing, s7, hc7, h⟩ := bind_ok_elim h
  obtain ⟨c1, c2, c3, c4, c5, c6⟩ := processCandidates_ok env ab st _ _ _ _ hc7
  obtain ⟨u8, s8, hw8, h⟩ := bind_ok_elim h
  have hw8' : s8.run.summary = s7.run.summary ∧
      s8.run.offersProcessed = s7.run.offersProcessed ∧
      s8.store = s7.store ∧
      s8.locals.offerComparisons = s7.locals.offerComparisons ∧
      s8.locals.totalNewOffers = s7.locals.totalNewOffers ∧
      s8.locals.totalOffersProcessed = s7.locals.totalOffersProcessed ∧
      s8.trace = s7.trace := by
    split at hw8
    · have e8 := dbWrite_ok_elim hw8; subst e8
      exact ⟨by simp, by simp, by simp, by simp, by simp, by simp, by simp⟩
    · have e8 := dbWrite_ok_elim hw8; subst e8
      exact ⟨by simp, by simp, by simp, by simp, by simp, by simp, by simp⟩
  obtain ⟨d1, d2, d3, d4, d5, d6, d7⟩ := hw8'
  obtain ⟨u9, s9, hw9, h⟩ := bind_ok_elim h
  rcases dbTick_cases env _ with ht9 | ht9 <;> rw [ht9] at hw9
  · cases hw9
  cases hw9
  obtain ⟨u10, s10, hw10, h⟩ := bind_ok_elim h
  have e10 := dbWrite_ok_elim hw10; subst e10
  obtain ⟨u11, s11, hl, h⟩ := bind_ok_elim h
  obtain ⟨l1, l2, l3, l4, l5⟩ := processCasinoList_ok env ab st _ _ _ _ hl
  have e12 := dbWrite_ok_elim h
  have p0 : s'.trace = s11.trace := by rw [e12]; simp
  have p1 : s'.store = s11.store := by rw [e12]; simp
  have p2 : s'.run.summary = s11.run.summary := by rw [e12]; simp
  have p3 : s'.run.offersProcessed = s11.run.offersProcessed := by rw [e12]; simp
  have p4 : s'.locals = s11.locals := by rw [e12]; simp
  have q2 : discTrace s7 = discTrace s ++ [st] := by
    rw [discTrace_congr c5]
    simp [discTrace, List.filterMap_append]
  have w1 : discTrace s11 = discTrace s8 := by
    rw [l2]; exact discTrace_congr (by simp)
  have w3 : s11.run.summary = s8.run.summary := by
    rw [l4]; simp
  have casL : s11.store.casinos = s8.store.casinos := by
    rw [l1]; simp
  refine ⟨?_, ?_, ?_, ?_, ?_⟩
  · calc discTrace s'
        = discTrace s11 := discTrace_congr p0
      _ = discTrace s8 := w1
      _ = discTrace s7 := discTrace_congr d7
      _ = discTrace s ++ [st] := q2
  · calc s'.run.summary
        = s11.run.summary := p2
      _ = s8.run.summary := w3
      _ = s7.run.summary := d1
      _ = s.run.summary := by rw [c1]; simp
  · intro hfaith htr hC
    refine CInv_of_eq (s := s7) (by rw [p1, casL, d3]) ?_
    refine c6 hfaith htr ?_
    exact CInv_of_eq (s := s) (by simp) hC
  · intro b hb
    refine SyncInv_of_eq (s := s11) (by rw [p4]) (by rw [p4]) (by rw [p4])
      p3 (by rw [p1]) ?_
    refine l5 b ?_
    refine SyncInv_of_eq (s := s8) (by simp) (by simp) (by simp) (by simp) (by simp) ?_
    refine SyncInv_of_eq (s := s7) d4 d5 d6 d2 (by rw [d3]) ?_
    refine SyncInv_of_eq (by rw [c4]) (by rw [c4]) (by rw [c4]) c2 c3 ?_
    exact SyncInv_of_eq (s := s) (by simp) (by simp) (by simp) (by simp) (by simp) hb
  · intro hde
    rw [hde] at hc7
    simp only [processCandidates] at hc7
    cases hc7
    constructor
    · rw [p1, casL, d3]
      simp
    · have r0 : researchTrace s' = researchTrace s11 := researchTrace_congr p0
      have r1 : researchTrace s11 = researchTrace s8 ++
          ((s8.store.casinos.filter fun c => c.stateAbbreviation == ab).map
            fun c => c.name) := by
        rw [l3]
        congr 1
      have r2 : researchTrace s8 = researchTrace s := by
        rw [researchTrace_congr d7]
        simp [researchTrace, List.filterMap_append]
      have r3 : s8.store.casinos = s.store.casinos := by
        rw [d3]
        simp
      rw [r0, r1, r2, r3]

/-- Failing jurisdiction processing: the discovery trace grew by at most
the one discovery call, the summary is untouched, the venue-identity
invariant is preserved, and with a fault-free environment and an empty
discovery result no failure is possible. -/
theorem processJurisdiction_err (env : Env) (ab st : String) (s : RunState)
    (e : RunError) (s' : RunState)
    (h : processJurisdiction env ab st s = .err e s') :
    (discTrace s' = discTrace s ∨ discTrace s' = discTrace s ++ [st]) ∧
    s'.run.summary = s.run.summary ∧
    (envRegexFaithful env → candsTrimmed (env.discover st) → CInv s → CInv s') ∧
    (env.faultAt = none → env.discover st = [] → False) := by
  rw [processJurisdiction] at h
  rcases bind_err_elim h with hw | ⟨u1, s1, hw1, h⟩
  · obtain ⟨hf, hs⟩ := dbWrite_err_elim hw; subst hs
    exact ⟨Or.inl (discTrace_congr (by simp)), by simp,
      fun _ _ hC => CInv_of_eq (by simp) hC, fun hn _ => hf hn⟩
  have e1 := dbWrite_ok_elim hw1; subst e1
  rcases bind_err_elim h with hw | ⟨u2, s2, hw2, h⟩
  · obtain ⟨hf, hs⟩ := dbWrite_err_elim hw; subst hs
    exact ⟨Or.inl (discTrace_congr (by simp)), by simp,
      fun _ _ hC => CInv_of_eq (by simp) hC, fun hn _ => hf hn⟩
  have e2 := dbWrite_ok_elim hw2; subst e2
  rcases bind_err_elim h with hw | ⟨u3, s3, hw3, h⟩
  · obtain ⟨hf, hs⟩ := dbWrite_err_elim hw; subst hs
    exact ⟨Or.inl (discTrace_congr (by simp)), by simp,
      fun _ _ hC => CInv_of_eq (by simp) hC, fun hn _ => hf hn⟩
  have e3 := dbWrite_ok_elim hw3; subst e3
  rcases bind_err_elim h with hw | ⟨u5, s5, hw5, h⟩
  · obtain ⟨hf, hs⟩ := dbWrite_err_elim hw; subst hs
    exact ⟨Or.inr (by simp [discTrace, List.filterMap_append]), by simp,
      fun _ _ hC => CInv_of_eq (by simp) hC, fun hn _ => hf hn⟩
  have e5 := dbWrite_ok_elim hw5; subst e5
  rcases bind_err_elim h with hw | ⟨u6, s6, hw6, h⟩
  · obtain ⟨hf, hs⟩ := dbTick_err_elim hw; subst hs
    exact ⟨Or.inr (by simp [discTrace, List.filterMap_append]), by simp,
      fun _ _ hC => CInv_of_eq (by simp) hC, fun hn _ => hf hn⟩
  rcases dbTick_cases env _ with ht | ht <;> rw [ht] at hw6
  · cases hw6
  cases hw6
  rcases bind_err_elim h with hc7 | ⟨missing, s7, hc7, h⟩
  · obtain ⟨g1, g2, g3, g4, g5, g6⟩ := processCandidates_err env ab st _ _ _ _ hc7
    refine ⟨Or.inr ?_, by rw [g1]; simp, ?_, ?_⟩
    · rw [discTrace_congr g5]
      simp [discTrace, List.filterMap_append]
    · intro hfaith htr hC
      exact g6 hfaith htr (CInv_of_eq (by simp) hC)
    · intro hfn hde
      rw [hde] at hc7
      simp only [processCandidates] at hc7
      cases hc7
  obtain ⟨c1, c2, c3, c4, c5, c6⟩ := processCandidates_ok env ab st _ _ _ _ hc7
  have hde27 : env.discover st = [] → (s7.store.casinos = s.store.casinos ∧
      discTrace s7 = discTrace s ++ [st]) := by
    intro hde
    rw [hde] at hc7
    simp only [processCandidates] at hc7
    cases hc7
    exact ⟨by simp, by simp [discTrace, List.filterMap_append]⟩
  have hd7 : discTrace s7 = discTrace s ++ [st] := by
    rw [discTrace_congr c5]
    simp [discTrace, List.filterMap_append]
  have hsum7 : s7.run.summary = s.run.summary := by
    rw [c1]
    simp
  have hCI7 : envRegexFaithful env → candsTrimmed (env.discover st) → CInv s →
      CInv s7 := fun hfaith htr hC =>
    c6 hfaith htr (CInv_of_eq (by simp) hC)
  rcases bind_err_elim h with hw | ⟨u8, s8, hw8, h⟩
  · have hw8' : env.faultAt ≠ none ∧ s'.run.summary = s7.run.summary ∧
        s'.store.casinos = s7.store.casinos ∧ s'.trace = s7.trace := by
      split at hw
      · obtain ⟨hf, hs⟩ := dbWrite_err_elim hw; subst hs
        exact ⟨hf, by simp, by simp, by simp⟩
      · obtain ⟨hf, hs⟩ := dbWrite_err_elim hw; subst hs
        exact ⟨hf, by simp, by simp, by simp⟩
    obtain ⟨hf, g1, g2, g3⟩ := hw8'
    refine ⟨Or.inr ?_, by rw [g1, hsum7],
      fun hfaith htr hC => CInv_of_eq g2 (hCI7 hfaith htr hC),
      fun hn _ => hf hn⟩
    rw [discTrace_congr g3, hd7]
  have hw8' : s8.run.summary = s7.run.summary ∧
      s8.store = s7.store ∧ s8.trace = s7.trace := by
    split at hw8
    · have e8 := dbWrite_ok_elim hw8; subst e8
      exact ⟨by simp, by simp, by simp⟩
    · have e8 := dbWrite_ok_elim hw8; subst e8
      exact ⟨by simp, by simp, by simp⟩
  obtain ⟨d1, d3, d7⟩ := hw8'
  rcases bind_err_elim h with hw | ⟨u9, s9, hw9, h⟩
  · obtain ⟨hf, hs⟩ := dbTick_err_elim hw; subst hs
    refine ⟨Or.inr ?_, by simp [d1, hsum7], ?_, fun hn _ => hf hn⟩
    · rw [discTrace_congr (by simp : ({ s8 with opCount := s8.opCount + 1 } : RunState).trace = s8.trace),
        discTrace_congr d7, hd7]
    · intro hfaith htr hC
      refine CInv_of_eq (s := s7) (by rw [show ({ s8 with opCount := s8.opCount + 1 } : RunState).store = s8.store from rfl, d3]) ?_
      exact hCI7 hfaith htr hC
  rcases dbTick_cases env _ with ht9 | ht9 <;> rw [ht9] at hw9
  · cases hw9
  cases hw9
  rcases bind_err_elim h with hw | ⟨u10, s10, hw10, h⟩
  · obtain ⟨hf, hs⟩ := dbWrite_err_elim hw; subst hs
    refine ⟨Or.inr ?_, by simp [d1, hsum7], ?_, fun hn _ => hf hn⟩
    · rw [← hd7]
      exact discTrace_congr (by simp [d7])
    · intro hfaith htr hC
      exact CInv_of_eq (s := s7) (by simp [d3]) (hCI7 hfaith htr hC)
  have e10 := dbWrite_ok_elim hw10; subst e10
  rcases bind_err_elim h with hl | ⟨u11, s11, hl, h⟩
  · obtain ⟨hf, g1, g2, g3⟩ := processCasinoList_err env ab st _ _ _ _ hl
    refine ⟨Or.inr ?_, ?_, ?_, fun hn _ => hf hn⟩
    · rw [g2, ← hd7]
      exact discTrace_congr (by simp [d7])
    · rw [g3]
      simp [d1, hsum7]
    · intro hfaith htr hC
      refine CInv_of_eq (s := s7) ?_ (hCI7 hfaith htr hC)
      rw [g1]
      simp [d3]
  obtain ⟨l1, l2, l3, l4, l5⟩ := processCasinoList_ok env ab st _ _ _ _ hl
  obtain ⟨hf, hs⟩ := dbWrite_err_elim h; subst hs
  refine ⟨Or.inr ?_, ?_, ?_, fun hn _ => hf hn⟩
  · trans discTrace s11
    · exact discTrace_congr (by simp)
    · rw [l2, ← hd7]
      exact discTrace_congr (by simp [d7])
  · rw [show ({ s11 with opCount := s11.opCount + 1 } : RunState).run = s11.run from rfl, l4]
    simp [d1, hsum7]
  · intro hfaith htr hC
    refine CInv_of_eq (s := s7) ?_ (hCI7 hfaith htr hC)
    rw [show ({ s11 with opCount := s11.opCount + 1 } : RunState).store = s11.store from rfl, l1]
    simp [d3]

/-- Successful jurisdiction loop: one discovery call per jurisdiction, in
list order; the summary is untouched; the venue-identity and offer-counter
invariants are preserved; with empty discovery everywhere the casino
collection is untouched and the research trace lists the stored venues of
each jurisdiction in order. -/
theorem runStates_ok (env : Env) :
    ∀ (l : List (String × String)) (s : RunState) (a : Unit) (s' : RunState),
      runStates env l s = .ok a s' →
      discTrace s' = discTrace s ++ l.map Prod.snd ∧
      s'.run.summary = s.run.summary ∧
      (envRegexFaithful env → envTrimmed env → CInv s → CInv s') ∧
      (∀ b, SyncInv b s → SyncInv b s') ∧
      ((∀ st', env.discover st' = []) →
        s'.store.casinos = s.store.casinos ∧
        researchTrace s' = researchTrace s ++
          (l.map fun p => (s.store.casinos.filter
            fun c => c.stateAbbreviation == p.1).map fun c => c.name).flatten)
  | [], s, a, s', h => by
    cases h
    exact ⟨by simp, rfl, fun _ _ hC => hC, fun _ hb => hb, fun _ => ⟨rfl, by simp⟩⟩
  | (ab, st) :: rest, s, a, s', h => by
    rw [runStates] at h
    obtain ⟨u₁, s₁, hj, h⟩ := bind_ok_elim h
    obtain ⟨j1, j2, j3, j4, j5⟩ := processJurisdiction_ok env ab st s _ _ hj
    obtain ⟨i1, i2, i3, i4, i5⟩ := runStates_ok env rest s₁ _ _ h
    refine ⟨?_, by rw [i2, j2], ?_, ?_, ?_⟩
    · rw [i1, j1]
      simp
    · intro hfaith htr hC
      exact i3 hfaith htr (j3 hfaith (htr st) hC)
    · intro b hb
      exact i4 b (j4 b hb)
    · intro hde
      obtain ⟨jc, jr⟩ := j5 (hde st)
      obtain ⟨ic, ir⟩ := i5 hde
      refine ⟨by rw [ic, jc], ?_⟩
      rw [ir, jr, jc]
      simp

/-- Failing jurisdiction loop: the discovery trace grew by a prefix of the
jurisdiction list, the summary is untouched, the venue-identity invariant
is preserved, and with a fault-free environment and empty discovery results
no failure is possible. -/
theorem runStates_err (env : Env) :
    ∀ (l : List (String × String)) (s : RunState) (e : RunError) (s' : RunState),
      runStates env l s = .err e s' →
      (∃ n, discTrace s' = discTrace s ++ (l.map Prod.snd).take n) ∧
      s'.run.summary = s.run.summary ∧
      (envRegexFaithful env → envTrimmed env → CInv s → CInv s') ∧
      (env.faultAt = none → (∀ st', env.discover st' = []) → False)
  | [], s, e, s', h => by cases h
  | (ab, st) :: rest, s, e, s', h => by
    rw [runStates] at h
    rcases bind_err_elim h with hj | ⟨u₁, s₁, hj, h⟩
    · obtain ⟨j1, j2, j3, j4⟩ := processJurisdiction_err env ab st s _ _ hj
      refine ⟨?_, j2, fun hfaith htr hC => j3 hfaith (htr st) hC,
        fun hn hde => j4 hn (hde st)⟩
      rcases j1 with j1 | j1
      · exact ⟨0, by simpa using j1⟩
      · exact ⟨1, by simpa using j1⟩
    · obtain ⟨j1, j2, j3, j4, j5⟩ := processJurisdiction_ok env ab st s _ _ hj
      obtain ⟨⟨n, i1⟩, i2, i3, i4⟩ := runStates_err env rest s₁ _ _ h
      refine ⟨⟨n + 1, ?_⟩, by rw [i2, j2],
        fun hfaith htr hC => i3 hfaith htr (j3 hfaith (htr st) hC), i4⟩
      rw [i1, j1]
      simp

/-- Successful run body: the final record is completed with timestamp set,
pointers cleared, the accumulated missing-venue and comparison lists
written back, and the summary computed from them; the discovery trace is
the full enumeration; the venue-identity and offer-counter invariants are
preserved; and with empty discovery everywhere the casino collection is
untouched and the research trace lists the stored venues of each
jurisdiction in enumeration order. -/
theorem performResearchBody_ok (env : Env) (s0 : RunState) (a : Unit)
    (sF : RunState) (h : performResearchBody env s0 = .ok a sF) :
    sF.run.status = .completed ∧
    sF.run.completedAt = true ∧
    sF.run.currentState = none ∧
    sF.run.currentCasino = none ∧
    sF.run.missingCasinos = sF.locals.missingCasinos ∧
    sF.run.offerComparisons = sF.locals.offerComparisons ∧
    sF.run.summary = some { totalMissingCasinos := sumMissing sF.locals.missingCasinos,
                            totalNewOffers := sF.locals.totalNewOffers,
                            statesProcessed := stateNames } ∧
    discTrace sF = discTrace s0 ++ stateNames ∧
    (envRegexFaithful env → envTrimmed env → CInv s0 → CInv sF) ∧
    (∀ b, SyncInv b s0 → SyncInv b sF) ∧
    ((∀ st', env.discover st' = []) →
      sF.store.casinos = s0.store.casinos ∧
      researchTrace sF = researchTrace s0 ++
        (statesList.map fun p => (s0.store.casinos.filter
          fun c => c.stateAbbreviation == p.1).map fun c => c.name).flatten) := by
  rw [performResearchBody] at h
  obtain ⟨u0, t0, hw0, h⟩ := bind_ok_elim h
  rcases dbTick_cases env _ with ht | ht <;> rw [ht] at hw0
  · cases hw0
  cases hw0
  obtain ⟨u1, t1, hw1, h⟩ := bind_ok_elim h
  have e1 := dbWrite_ok_elim hw1; subst e1
  obtain ⟨uR, sR, hR, h⟩ := bind_ok_elim h
  obtain ⟨i1, i2, i3, i4, i5⟩ := runStates_ok env statesList _ _ _ hR
  obtain ⟨u2, t2, hw2, h⟩ := bind_ok_elim h
  have e2 := dbWrite_ok_elim hw2; subst e2
  obtain ⟨u3, t3, hw3, h⟩ := bind_ok_elim h
  have e3 := dbWrite_ok_elim hw3; subst e3
  obtain ⟨u4, t4, hw4, h⟩ := bind_ok_elim h
  have e4 := dbWrite_ok_elim hw4; subst e4
  have eF := dbWrite_ok_elim h
  refine ⟨by rw [eF]; simp [finalizeCompleted], by rw [eF]; simp [finalizeCompleted],
    by rw [eF]; simp [finalizeCompleted], by rw [eF]; simp [finalizeCompleted],
    by rw [eF]; simp [finalizeCompleted], by rw [eF]; simp [finalizeCompleted],
    by rw [eF]; simp [finalizeCompleted], ?_, ?_, ?_, ?_⟩
  · have tF : sF.trace = sR.trace := by rw [eF]; simp [finalizeCompleted]
    rw [discTrace_congr tF, i1]
    have ts : ({ s0 with opCount := s0.opCount + 1 } : RunState).trace = s0.trace := rfl
    rw [discTrace_congr (s := s0) (by simp)]
    rfl
  · intro hfaith htr hC
    have cF : sF.store.casinos = sR.store.casinos := by
      rw [eF]; simp [finalizeCompleted]
    refine CInv_of_eq cF ?_
    exact i3 hfaith htr (CInv_of_eq (s := s0) (by simp) hC)
  · intro b hb
    have lF : sF.locals = sR.locals := by rw [eF]; simp [finalizeCompleted]
    have oF : sF.run.offersProcessed = sR.run.offersProcessed := by
      rw [eF]; simp [finalizeCompleted]
    have fF : sF.store.offers = sR.store.offers := by
      rw [eF]; simp [finalizeCompleted]
    refine SyncInv_of_eq (s := sR) (by rw [lF]) (by rw [lF]) (by rw [lF]) oF fF ?_
    refine i4 b ?_
    exact SyncInv_of_eq (s := s0) (by simp) (by simp) (by simp) (by simp) (by simp) hb
  · intro hde
    obtain ⟨ic, ir⟩ := i5 hde
    have cF : sF.store.casinos = sR.store.casinos := by
      rw [eF]; simp [finalizeCompleted]
    have tF : sF.trace = sR.trace := by rw [eF]; simp [finalizeCompleted]
    refine ⟨by rw [cF, ic]; simp, ?_⟩
    rw [researchTrace_congr tF, ir]
    have : researchTrace (logPush "Research started for all states"
        { { s0 with opCount := s0.opCount + 1 } with
          opCount := ({ s0 with opCount := s0.opCount + 1 } : RunState).opCount + 1 }) =
        researchTrace s0 := researchTrace_congr (by simp)
    rw [researchTrace_congr (s := s0) (by simp)]
    rfl

/-- Failing run body: the discovery trace grew by a prefix of the
enumeration, the summary is untouched, the venue-identity invariant is
preserved, and with a fault-free environment and empty discovery results no
failure is possible. -/
theorem performResearchBody_err (env : Env) (s0 : RunState) (e : RunError)
    (s' : RunState) (h : performResearchBody env s0 = .err e s') :
    (∃ n, discTrace s' = discTrace s0 ++ stateNames.take n) ∧
    s'.run.summary = s0.run.summary ∧
    (envRegexFaithful env → envTrimmed env → CInv s0 → CInv s') ∧
    (env.faultAt = none → (∀ st', env.discover st' = []) → False) := by
  rw [performResearchBody] at h
  rcases bind_err_elim h with hw | ⟨u0, t0, hw0, h⟩
  · obtain ⟨hf, hs⟩ := dbTick_err_elim hw; subst hs
    exact ⟨⟨0, by simpa using discTrace_congr (s := s0) (by simp)⟩, by simp,
      fun _ _ hC => CInv_of_eq (by simp) hC, fun hn _ => hf hn⟩
  rcases dbTick_cases env _ with ht | ht <;> rw [ht] at hw0
  · cases hw0
  cases hw0
  rcases bind_err_elim h with hw | ⟨u1, t1, hw1, h⟩
  · obtain ⟨hf, hs⟩ := dbWrite_err_elim hw; subst hs
    exact ⟨⟨0, by simpa using discTrace_congr (s := s0) (by simp)⟩, by simp,
      fun _ _ hC => CInv_of_eq (by simp) hC, fun hn _ => hf hn⟩
  have e1 := dbWrite_ok_elim hw1; subst e1
  rcases bind_err_elim h with hR | ⟨uR, sR, hR, h⟩
  · obtain ⟨⟨n, i1⟩, i2, i3, i4⟩ := runStates_err env statesList _ _ _ hR
    refine ⟨⟨n, ?_⟩, by rw [i2]; simp, ?_, i4⟩
    · rw [i1, discTrace_congr (s := s0) (by simp)]
      rfl
    · intro hfaith htr hC
      exact i3 hfaith htr (CInv_of_eq (s := s0) (by simp) hC)
  obtain ⟨i1, i2, i3, i4, i5⟩ := runStates_ok env statesList _ _ _ hR
  have hdR : discTrace sR = discTrace s0 ++ stateNames := by
    rw [i1, discTrace_congr (s := s0) (by simp)]
    rfl
  have hsR : sR.run.summary = s0.run.summary := by rw [i2]; simp
  have hCR : envRegexFaithful env → envTrimmed env → CInv s0 → CInv sR :=
    fun hfaith htr hC =>
    i3 hfaith htr (CInv_of_eq (s := s0) (by simp) hC)
  rcases bind_err_elim h with hw | ⟨u2, t2, hw2, h⟩
  · obtain ⟨hf, hs⟩ := dbWrite_err_elim hw; subst hs
    exact ⟨⟨statesList.length, by rw [discTrace_congr (s := sR) (by simp), hdR]; simp [stateNames]⟩,
      by simp [hsR],
      fun hfaith htr hC => CInv_of_eq (s := sR) (by simp) (hCR hfaith htr hC),
      fun hn _ => hf hn⟩
  have e2 := dbWrite_ok_elim hw2; subst e2
  rcases bind_err_elim h with hw | ⟨u3, t3, hw3, h⟩
  · obtain ⟨hf, hs⟩ := dbWrite_err_elim hw; subst hs
    exact ⟨⟨statesList.length, by rw [discTrace_congr (s := sR) (by simp), hdR]; simp [stateNames]⟩,
      by simp [hsR],
      fun hfaith htr hC => CInv_of_eq (s := sR) (by simp) (hCR hfaith htr hC),
      fun hn _ => hf hn⟩
  have e3 := dbWrite_ok_elim hw3; subst e3
  rcases bind_err_elim h with hw | ⟨u4, t4, hw4, h⟩
  · obtain ⟨hf, hs⟩ := dbWrite_err_elim hw; subst hs
    exact ⟨⟨statesList.length, by rw [discTrace_congr (s := sR) (by simp), hdR]; simp [stateNames]⟩,
      by simp [hsR],
      fun hfaith htr hC => CInv_of_eq (s := sR) (by simp) (hCR hfaith htr hC),
      fun hn _ => hf hn⟩
  have e4 := dbWrite_ok_elim hw4; subst e4
  obtain ⟨hf, hs⟩ := dbWrite_err_elim h; subst hs
  exact ⟨⟨statesList.length, by rw [discTrace_congr (s := sR) (by simp), hdR]; simp [stateNames]⟩,
    by simp [hsR],
    fun hfaith htr hC => CInv_of_eq (s := sR) (by simp) (hCR hfaith htr hC),
    fun hn _ => hf hn⟩

/-- The structural substring test agrees with contiguous-sublist
containment. -/
theorem listHasInfix_iff (n : List Char) (h : List Char) :
    listHasInfix n h = true ↔ n <:+: h := by
  induction h with
  | nil => simp [listHasInfix, List.isEmpty_iff, List.infix_nil]
  | cons c t ih =>
    simp [listHasInfix, List.isPrefixOf_iff_prefix, ih, List.infix_cons_iff]

/-- Characterization of the offer-matching rule as an existential over the
venue's current offers. -/
theorem offerIsKnown_iff (currentOffers : List StoredOffer) (d : OfferCandidate) :
    offerIsKnown currentOffers d = true ↔
      ∃ c ∈ currentOffers,
        ((jsToLower d.offerName).data <:+: (jsToLower c.offerName).data ∨
         (jsToLower c.offerName).data <:+: (jsToLower d.offerName).data) ∨
        (jsToLower c.offerType = jsToLower d.offerType ∧
         (c.expectedBonus - d.expectedBonus).natAbs < 50) := by
  simp [offerIsKnown, includesCI, List.any_eq_true, listHasInfix_iff,
    beq_iff_eq]

/-- C1: a discovered offer is classified as new (member of the `newOffers`
list) exactly when it is discovered and no stored reference offer of the
venue matches it by case-insensitive substring containment of names in
either direction, or by case-insensitive type equality together with an
expected-bonus difference of absolute value strictly below 50; with equal
types, a bonus difference of 40 is classified known and a difference of 60
is classified new. -/
theorem offer_matching_classification
    (currentOffers : List StoredOffer) (discovered : List OfferCandidate)
    (d : OfferCandidate) :
    (d ∈ newOffersOf currentOffers discovered ↔
      d ∈ discovered ∧ ¬ ∃ c ∈ currentOffers,
        ((jsToLower d.offerName).data <:+: (jsToLower c.offerName).data ∨
         (jsToLower c.offerName).data <:+: (jsToLower d.offerName).data) ∨
        (jsToLower c.offerType = jsToLower d.offerType ∧
         (c.expectedBonus - d.expectedBonus).natAbs < 50)) ∧
    offerIsKnown [refWelcome] candDiff40 = true ∧
    offerIsKnown [refWelcome] candDiff60 = false := by
  refine ⟨?_, by decide, by decide⟩
  rw [← offerIsKnown_iff]
  simp [newOffersOf, List.mem_filter]

/-- C2 counterexample: venue matching is not whitespace-trim-insensitive.
The candidate name `"  golden nugget  "` is metacharacter-free, so its
compiled pattern `/^  golden nugget  $/i` is the anchored case-insensitive
literal test on the raw untrimmed name; that test rejects the stored name
`"Golden Nugget"`, and the exact branch is case-sensitive, so the run
classifies the candidate as missing and creates a second venue. -/
theorem venue_trim_counterexample :
    venueKnown (ciLiteralTest "  golden nugget  ") storeGN.casinos "NJ"
      "  golden nugget  " = false ∧
    (performResearchFrom envGN storeGN).run.status = .completed ∧
    (performResearchFrom envGN storeGN).run.missingCasinos =
      [{ state := "New Jersey", casinos := ["  golden nugget  "] }] := by
  exact ⟨by decide, by decide, by decide⟩

/-- C2 amended: for a metacharacter-free candidate name — whose compiled
pattern `'^' + name + '$'` with flag `'i'` is the anchored case-insensitive
literal test — a candidate is classified already-known exactly when a
stored venue of the jurisdiction has a name equal to the candidate's raw
untrimmed name ignoring case, or equal exactly (case-sensitively) to the
candidate's lowercased and trimmed name.  In particular `"golden nugget"`
matches the stored `"Golden Nugget"` while `"  golden nugget  "` does not;
for names containing metacharacters the regex branch applies full regex
semantics instead, e.g. the candidate `"Golden Nugge."` (pattern
`/^Golden Nugge.$/i`, `.` a wildcard) does match the stored
`"Golden Nugget"`. -/
theorem venue_matching_amended (test : String → Bool) (casinos : List Casino)
    (ab nm : String) (hsafe : regexSafe nm = true)
    (hbeh : ∀ subject, test subject = (jsToLower subject == jsToLower nm)) :
    (venueKnown test casinos ab nm = true ↔
      ∃ c ∈ casinos, c.stateAbbreviation = ab ∧
        (jsToLower c.name = jsToLower nm ∨ c.name = jsTrim (jsToLower nm))) ∧
    venueKnown (ciLiteralTest "golden nugget") [goldenNugget] "NJ"
      "golden nugget" = true ∧
    venueKnown (ciLiteralTest "  golden nugget  ") [goldenNugget] "NJ"
      "  golden nugget  " = false ∧
    venueKnown dotNuggetTest [goldenNugget] "NJ" "Golden Nugge." = true := by
  refine ⟨?_, by decide, by decide, by decide⟩
  simp [venueKnown, hbeh, List.any_eq_true, beq_iff_eq]

/-- C2 amended witness: the literal test compiled from `"golden nugget"`
classifies the stored `"Golden Nugget"` as known via the characterized
rule. -/
theorem venue_matching_amended_witness :
    (venueKnown (ciLiteralTest "golden nugget") [goldenNugget] "NJ"
        "golden nugget" = true ↔
      ∃ c ∈ [goldenNugget], c.stateAbbreviation = "NJ" ∧
        (jsToLower c.name = jsToLower "golden nugget" ∨
         c.name = jsTrim (jsToLower "golden nugget"))) ∧
    venueKnown (ciLiteralTest "golden nugget") [goldenNugget] "NJ"
      "golden nugget" = true ∧
    venueKnown (ciLiteralTest "  golden nugget  ") [goldenNugget] "NJ"
      "  golden nugget  " = false ∧
    venueKnown dotNuggetTest [goldenNugget] "NJ" "Golden Nugge." = true :=
  venue_matching_amended (ciLiteralTest "golden nugget") [goldenNugget] "NJ"
    "golden nugget" (by decide) (fun _ => rfl)

/-- C9: a discovery result containing a candidate without a `name` field
(or whose name is not a valid regular expression) makes the venue-matching
step itself throw; the exception escapes to the top level and the whole run
ends `failed` with the error message logged, even though the discovery
stage call itself succeeded (returned a non-empty candidate list). -/
theorem venue_matching_throws :
    envBadName.discover "New Jersey" = [{ name := none }] ∧
    (∃ s', performResearchBody envBadName (initState {}) = .err .typeError s') ∧
    (performResearchFrom envBadName {}).run.status = .failed ∧
    (performResearchFrom envBadName {}).run.progressLog.getLast? =
      some ("Research failed: " ++ RunError.typeError.message) ∧
    envBadRegex.discover "New Jersey" = [{ name := some "(" }] ∧
    (∃ s', performResearchBody envBadRegex (initState {}) = .err .regexSyntaxError s') ∧
    (performResearchFrom envBadRegex {}).run.status = .failed := by
  exact ⟨by decide, ⟨_, rfl⟩, by decide, by decide, by decide, ⟨_, rfl⟩, by decide⟩

/-- C8: the end-to-end scenario.  With one stored reference venue
`"Acme Casino"` (NJ) holding one reference welcome offer with bonus 100,
NJ discovery returning Acme and Beta, Acme research returning a welcome
offer with bonus 120 (matched) and Beta research returning a genuinely new
offer, the run completes with exactly one missing venue `"Beta Casino"`
under New Jersey, exactly one new offer attributed to `"Beta Casino"`,
`totalMissingCasinos = 1` and `totalNewOffers = 1`. -/
theorem end_to_end_scenario :
    (performResearchFrom envC8 storeC8).run.status = .completed ∧
    (performResearchFrom envC8 storeC8).run.missingCasinos =
      [{ state := "New Jersey", casinos := ["Beta Casino"] }] ∧
    ((performResearchFrom envC8 storeC8).run.offerComparisons.map fun e =>
      (e.casinoName, e.newOffers.length)) = [("Beta Casino", 1)] ∧
    (((performResearchFrom envC8 storeC8).store.offers.filter fun o =>
      o.source == "ai-research").map fun o => (o.casinoName, o.offerName)) =
      [("Beta Casino", "Sign-Up Bonus")] ∧
    (performResearchFrom envC8 storeC8).run.summary =
      some { totalMissingCasinos := 1, totalNewOffers := 1,
             statesProcessed := stateNames } := by
  exact ⟨by decide, by decide, by decide, by decide, by decide⟩

/-- C6 counterexample: after a completed run two stored venues can share
the identity key (lowercased trimmed name, jurisdiction code): a candidate
name with surrounding whitespace escapes both matching branches and a
duplicate venue is created for an already-stored identity key. -/
theorem venue_key_duplicate_counterexample :
    (performResearchFrom envGN storeGN).run.status = .completed ∧
    ((performResearchFrom envGN storeGN).store.casinos.map Casino.key) =
      [("golden nugget", "NJ"), ("golden nugget", "NJ")] := by
  exact ⟨by decide, by decide⟩

/-- C3: a failing upstream call, a response without a brace-delimited JSON
candidate, or an unparseable candidate all make the discovery and
offer-research stages return the empty list rather than raise; and a run in
which every stage call yields zero results completes, discovering in every
jurisdiction and researching every stored venue of the four
jurisdictions. -/
theorem stage_failures_absorbed :
    (∀ parse, discoverCasinosByState parse .failure = []) ∧
    (∀ parse resp, extractBraced resp = none →
      discoverCasinosByState parse (.success resp) = []) ∧
    (∀ parse resp js, extractBraced resp = some js → parse js = none →
      discoverCasinosByState parse (.success resp) = []) ∧
    (∀ parse, researchCasinoOffers parse .failure = []) ∧
    (∀ parse resp, extractBraced resp = none →
      researchCasinoOffers parse (.success resp) = []) ∧
    (∀ parse resp js, extractBraced resp = some js → parse js = none →
      researchCasinoOffers parse (.success resp) = []) ∧
    (∀ (env : Env) (store : Store), env.faultAt = none →
      (∀ st, env.discover st = []) → (∀ c st, env.research c st = []) →
      (performResearchFrom env store).run.status = .completed ∧
      discTrace (performResearchFrom env store) = stateNames ∧
      researchTrace (performResearchFrom env store) =
        (statesList.map fun p => (store.casinos.filter
          fun c => c.stateAbbreviation == p.1).map fun c => c.name).flatten) := by
  refine ⟨fun _ => rfl, ?_, ?_, fun _ => rfl, ?_, ?_, ?_⟩
  · intro parse resp hx
    simp [discoverCasinosByState, hx]
  · intro parse resp js hx hp
    simp [discoverCasinosByState, hx, hp]
  · intro parse resp hx
    simp [researchCasinoOffers, hx]
  · intro parse resp js hx hp
    simp [researchCasinoOffers, hx, hp]
  · intro env store hfault hde _
    rw [performResearchFrom, performResearch]
    cases hb : performResearchBody env (initState store) with
    | err e s' =>
      obtain ⟨_, _, _, hcontra⟩ := performResearchBody_err env _ e s' hb
      exact absurd (hcontra hfault hde) not_false
    | ok a sF =>
      obtain ⟨b1, b2, b3, b4, b5, b6, b7, b8, b9, b10, b11⟩ :=
        performResearchBody_ok env _ a sF hb
      obtain ⟨bc, br⟩ := b11 hde
      refine ⟨b1, ?_, ?_⟩
      · rw [b8]
        rfl
      · rw [br]
        rfl

/-- C3 witness: with every stage yielding zero results and an empty store,
the run completes and every jurisdiction is discovered; a failing upstream
call yields an empty discovery. -/
theorem stage_failures_absorbed_witness :
    (performResearchFrom envEmpty {}).run.status = .completed ∧
    discoverCasinosByState (fun _ => none) .failure = [] :=
  ⟨(stage_failures_absorbed.2.2.2.2.2.2 envEmpty {} rfl (fun _ => rfl)
      (fun _ _ => rfl)).1,
   stage_failures_absorbed.1 (fun _ => none)⟩

/-- C4: when an error escapes the orchestrator loop, the run is handed to
the catch handler: a log entry carrying the error message is appended, the
record ends `failed` with completion timestamp set and transient pointers
cleared, the store is exactly the store at the failure point (no rollback),
the summary is never written, and the discovery trace is a prefix of the
enumeration (no later jurisdiction is processed). -/
theorem failure_semantics (env : Env) (store : Store) (e : RunError)
    (s' : RunState)
    (h : performResearchBody env (initState store) = .err e s') :
    performResearchFrom env store = markFailed e s' ∧
    (performResearchFrom env store).run.status = .failed ∧
    (performResearchFrom env store).run.completedAt = true ∧
    (performResearchFrom env store).run.currentState = none ∧
    (performResearchFrom env store).run.currentCasino = none ∧
    (performResearchFrom env store).run.progressLog =
      s'.run.progressLog ++ ["Research failed: " ++ e.message] ∧
    (performResearchFrom env store).store = s'.store ∧
    (performResearchFrom env store).run.summary = none ∧
    (∃ n, discTrace (performResearchFrom env store) = stateNames.take n) := by
  have hm : performResearchFrom env store = markFailed e s' := by
    rw [performResearchFrom, performResearch, h]
  obtain ⟨⟨n, d1⟩, d2, _, _⟩ := performResearchBody_err env _ e s' h
  refine ⟨hm, by rw [hm]; simp [markFailed], by rw [hm]; simp [markFailed],
    by rw [hm]; simp [markFailed], by rw [hm]; simp [markFailed],
    by rw [hm]; simp [markFailed], by rw [hm]; simp [markFailed], ?_, ?_⟩
  · rw [hm]
    show s'.run.summary = none
    rw [d2]
    rfl
  · refine ⟨n, ?_⟩
    rw [hm, discTrace_congr (s := s') (by simp [markFailed]), d1]
    rfl

/-- C4 witness: a store fault on the very first operation ends the run
`failed` with the failure log entry and an empty discovery trace. -/
theorem failure_semantics_witness :
    (performResearchFrom envFault0 {}).run.status = .failed ∧
    (performResearchFrom envFault0 {}).run.progressLog =
      ["Research failed: store operation failed"] ∧
    (performResearchFrom envFault0 {}).run.summary = none := by
  have h := failure_semantics envFault0 {} .storeError
    { store := {}, run := { status := .inProgress }, locals := {},
      opCount := 1, trace := [] } rfl
  exact ⟨h.2.1, by rw [h.2.2.2.2.2.1]; rfl, h.2.2.2.2.2.2.2.1⟩

/-- C5: for every completed run the summary's `totalMissingCasinos` is the
sum of `casinos.length` over the recorded missing-venue entries, its
`totalNewOffers` is the sum of `newOffers.length` over the recorded
comparison entries, and every recorded comparison entry has a non-empty
`newOffers` list. -/
theorem summary_totals (env : Env) (store : Store)
    (h : (performResearchFrom env store).run.status = .completed) :
    ∃ sm, (performResearchFrom env store).run.summary = some sm ∧
      sm.totalMissingCasinos =
        sumMissing (performResearchFrom env store).run.missingCasinos ∧
      sm.totalNewOffers =
        sumNewOffers (performResearchFrom env store).run.offerComparisons ∧
      ∀ entry ∈ (performResearchFrom env store).run.offerComparisons,
        entry.newOffers ≠ [] := by
  rw [performResearchFrom, performResearch] at h ⊢
  cases hb : performResearchBody env (initState store) with
  | err e s' =>
    rw [hb] at h
    simp [markFailed] at h
  | ok a sF =>
    obtain ⟨b1, b2, b3, b4, b5, b6, b7, b8, b9, b10, b11⟩ :=
      performResearchBody_ok _ _ a sF hb
    have hsync : SyncInv (aiOfferCount store.offers) sF :=
      b10 _ ⟨rfl, fun e he => absurd he (List.not_mem_nil e), rfl, rfl, rfl⟩
    obtain ⟨c1, c2, c3, c4, c5⟩ := hsync
    refine ⟨_, b7, ?_, ?_, ?_⟩
    · rw [b5]
    · rw [b6, c1]
    · rw [b6]
      exact c2

/-- C5 witness: the empty run completes and its summary totals match the
recorded lists. -/
theorem summary_totals_witness :
    (performResearchFrom envEmpty {}).run.status = .completed ∧
    ∃ sm, (performResearchFrom envEmpty {}).run.summary = some sm ∧
      sm.totalMissingCasinos =
        sumMissing (performResearchFrom envEmpty {}).run.missingCasinos ∧
      sm.totalNewOffers =
        sumNewOffers (performResearchFrom envEmpty {}).run.offerComparisons ∧
      ∀ entry ∈ (performResearchFrom envEmpty {}).run.offerComparisons,
        entry.newOffers ≠ [] :=
  ⟨by decide, summary_totals envEmpty {} (by decide)⟩

/-- C6 amended: after any run (completed or failed), no two stored venues
share the identity key (lowercased trimmed name, jurisdiction code),
provided the regex engine is faithful, every stored venue name is free of
whitespace around its lowercasing, and every discovered candidate name is
likewise trim-clean and free of regex metacharacters (so its compiled
pattern is the case-insensitive literal test).  Both provisos are
necessary: an untrimmed candidate duplicates an existing key (the
counterexample), and so does a metacharacter-bearing name such as
`"Casino (A)"`, whose valid pattern `/^Casino (A)$/i` matches
`"casino a"` rather than the literal stored name — demonstrated by the
final two conjuncts. -/
theorem venue_key_invariant_amended (env : Env) (store : Store)
    (hfaith : envRegexFaithful env)
    (htr : envTrimmed env)
    (hst : ∀ c ∈ store.casinos, lowerTrimmed c.name = true)
    (hkeys : store.casinos.Pairwise fun a b => a.key ≠ b.key) :
    (((performResearchFrom env store).store.casinos.Pairwise
      fun a b => a.key ≠ b.key) ∧
    ∀ c ∈ (performResearchFrom env store).store.casinos,
      lowerTrimmed c.name = true) ∧
    (performResearchFrom envParen storeParen).run.status = .completed ∧
    ((performResearchFrom envParen storeParen).store.casinos.map Casino.key) =
      [("casino (a)", "NJ"), ("casino (a)", "NJ")] := by
  refine ⟨?_, by decide, by decide⟩
  have hinit : CInv (initState store) := ⟨hkeys, hst⟩
  rw [performResearchFrom, performResearch]
  cases hb : performResearchBody env (initState store) with
  | err e s' =>
    obtain ⟨_, _, hCI, _⟩ := performResearchBody_err env _ e s' hb
    have : CInv (markFailed e s') :=
      CInv_of_eq (by simp [markFailed]) (hCI hfaith htr hinit)
    exact this
  | ok a sF =>
    obtain ⟨_, _, _, _, _, _, _, _, hCI, _, _⟩ :=
      performResearchBody_ok env _ a sF hb
    exact hCI hfaith htr hinit

/-- C6 amended witness: the end-to-end store and environment satisfy the
provisos (its regex engine is literal on metacharacter-free names, all
names are trimmed and metacharacter-free, keys are unique) and the
invariant survives the run. -/
theorem venue_key_invariant_amended_witness :
    (((performResearchFrom envC8 storeC8).store.casinos.Pairwise
      fun a b => a.key ≠ b.key) ∧
    ∀ c ∈ (performResearchFrom envC8 storeC8).store.casinos,
      lowerTrimmed c.name = true) ∧
    (performResearchFrom envParen storeParen).run.status = .completed ∧
    ((performResearchFrom envParen storeParen).store.casinos.map Casino.key) =
      [("casino (a)", "NJ"), ("casino (a)", "NJ")] :=
  venue_key_invariant_amended envC8 storeC8
    (fun nm hs => ⟨ciLiteralTest nm, by simp [envC8, safeOnlyRegexTest, hs],
      fun _ => rfl⟩)
    (by
      intro st cand hc nm hnm
      simp only [envC8] at hc
      split at hc
      · simp only [List.mem_cons, List.not_mem_nil, or_false] at hc
        rcases hc with rfl | rfl
        · cases hnm
          exact ⟨by decide, by decide⟩
        · cases hnm
          exact ⟨by decide, by decide⟩
      · cases hc)
    (by decide) (by decide)

/-- C7: the jurisdiction enumeration is fixed (NJ, MI, PA, WV in that
order); every run's discovery calls form a prefix of the enumeration's
display names in that order, and a completed run invokes discovery exactly
once per jurisdiction, in enumeration order. -/
theorem jurisdiction_enumeration (env : Env) (store : Store) :
    statesList = [("NJ", "New Jersey"), ("MI", "Michigan"),
      ("PA", "Pennsylvania"), ("WV", "West Virginia")] ∧
    (∃ n, discTrace (performResearchFrom env store) = stateNames.take n) ∧
    ((performResearchFrom env store).run.status = .completed →
      discTrace (performResearchFrom env store) = stateNames) := by
  refine ⟨rfl, ?_, ?_⟩
  · rw [performResearchFrom, performResearch]
    cases hb : performResearchBody env (initState store) with
    | err e s' =>
      obtain ⟨⟨n, d1⟩, _, _, _⟩ := performResearchBody_err env _ e s' hb
      refine ⟨n, ?_⟩
      show discTrace (markFailed e s') = stateNames.take n
      rw [discTrace_congr (s := s') (by simp [markFailed]), d1]
      rfl
    | ok a sF =>
      obtain ⟨_, _, _, _, _, _, _, b8, _, _, _⟩ :=
        performResearchBody_ok env _ a sF hb
      refine ⟨stateNames.length, ?_⟩
      show discTrace sF = stateNames.take stateNames.length
      rw [b8, List.take_length]
      rfl
  · intro h
    rw [performResearchFrom, performResearch] at h ⊢
    cases hb : performResearchBody env (initState store) with
    | err e s' =>
      rw [hb] at h
      simp [markFailed] at h
    | ok a sF =>
      obtain ⟨_, _, _, _, _, _, _, b8, _, _, _⟩ :=
        performResearchBody_ok env _ a sF hb
      show discTrace sF = stateNames
      rw [b8]
      rfl

/-- C7 witness: the empty run completes with the full enumeration as its
discovery trace. -/
theorem jurisdiction_enumeration_witness :
    discTrace (performResearchFrom envEmpty {}) = stateNames :=
  (jurisdiction_enumeration envEmpty {}).2.2 (by decide)

/-- C10 counterexample: the `offersProcessed` counter does not equal the
number of AI-discovered offers inserted so far throughout a run.  Each
venue's new offers are inserted (server.js:391-408) before the counter is
written back (server.js:435-437); a store fault on that write-back — the
seventeenth store operation of this run — leaves a run record with one
inserted AI-research offer and a counter of zero. -/
theorem offers_processed_lag_counterexample :
    envLag.faultAt = some 16 ∧
    (performResearchFrom envLag storeLag).run.status = .failed ∧
    aiOfferCount (performResearchFrom envLag storeLag).store.offers = 1 ∧
    (performResearchFrom envLag storeLag).run.offersProcessed = 0 := by
  exact ⟨rfl, by decide, by decide, by decide⟩

/-- C10 amended: the counter tracks insertions only up to the per-venue
write-back, not throughout; for every completed run the record's
`offersProcessed` counter equals the summary's `totalNewOffers`, and equals
the number of AI-research offers the run inserted into the store. -/
theorem offers_processed_counter (env : Env) (store : Store)
    (h : (performResearchFrom env store).run.status = .completed) :
    ∃ sm, (performResearchFrom env store).run.summary = some sm ∧
      (performResearchFrom env store).run.offersProcessed = sm.totalNewOffers ∧
      aiOfferCount (performResearchFrom env store).store.offers =
        aiOfferCount store.offers +
          (performResearchFrom env store).run.offersProcessed := by
  rw [performResearchFrom, performResearch] at h ⊢
  cases hb : performResearchBody env (initState store) with
  | err e s' =>
    rw [hb] at h
    simp [markFailed] at h
  | ok a sF =>
    obtain ⟨b1, b2, b3, b4, b5, b6, b7, b8, b9, b10, b11⟩ :=
      performResearchBody_ok env _ a sF hb
    have hsync : SyncInv (aiOfferCount store.offers) sF :=
      b10 _ ⟨rfl, fun e he => absurd he (List.not_mem_nil e), rfl, rfl, rfl⟩
    obtain ⟨c1, c2, c3, c4, c5⟩ := hsync
    refine ⟨_, b7, ?_, ?_⟩
    · rw [c4, c3]
    · rw [c5, c4, c3]

/-- C10 witness: the end-to-end run completes with one new offer and the
counter, the summary and the inserted-offer count agree. -/
theorem offers_processed_counter_witness :
    (performResearchFrom envC8 storeC8).run.status = .completed ∧
    ∃ sm, (performResearchFrom envC8 storeC8).run.summary = some sm ∧
      (performResearchFrom envC8 storeC8).run.offersProcessed = sm.totalNewOffers ∧
      aiOfferCount (performResearchFrom envC8 storeC8).store.offers =
        aiOfferCount storeC8.offers +
          (performResearchFrom envC8 storeC8).run.offersProcessed :=
  ⟨by decide, offers_processed_counter envC8 storeC8 (by decide)⟩

end CasinoResearch
